import Mathlib

/-!
Verification of the Moborr.io authoritative game server (FlowrPro/HordFlorr.io-BACKEND).

The repository holds several iterative snapshots of one evolving Node.js server:
`src/server.js` (a minimal single-world variant followed by the matchmaking
variant with `MatchInstance`), and `src/unnamed/part_000 .. part_004` (earlier
snapshots).  This file shallowly embeds the combat resolver, the ability-cast
validation, the projectile phase of the simulation tick, the chat rate limiter,
the passive-healing sweep and the wall-collision geometry, and proves or refutes
the spec's claims about them.

Modelling conventions, used throughout:
* JS `number` is embedded as `ℚ` (millisecond timestamps included).  Every
  floating-point product appearing in the embedded code paths
  (`x * 0.05`, `x * 0.1`, `x * 1.3` on the integer values the program feeds
  them) rounds to the exact rational result in IEEE double arithmetic, so the
  rational embedding is exact on the reachable states; this was checked for the
  concrete multiplier chains the program produces.
* `Math.hypot d ≤ r` comparisons are embedded as `d² ≤ r²` (equivalent for
  `r ≥ 0`); the geometry for claim C8, where the actual square-root values are
  pushed into coordinates, is embedded over `ℝ` with `Real.sqrt`.
* JS `x || y` on numbers yields `y` exactly when `x` is `0` (or `NaN`, which the
  program never produces on these paths); it is embedded as `if x = 0 then y else x`.
* `Map` iteration order is insertion order and is embedded as `List` order.
  JS `for (const k in obj)` over an object whose keys are canonical integer
  strings (the player ids, `String(nextPlayerId++)`) enumerates those keys in
  ascending numeric order (ECMA-262 OrdinaryOwnPropertyKeys), NOT in insertion
  order; the damage-contribution ledger is therefore stored as an
  insertion-ordered association list and enumerated through `ledgerForInOrder`,
  an ascending sort by numeric key.
* Broadcasts are modelled as emitted event values; sockets are out of scope.
-/

/-- JS `a || b` on numbers: `b` when `a` is falsy (0). -/
def jsOrQ (a b : ℚ) : ℚ := if a = 0 then b else a

/-- JS `a || b` on natural values. -/
def jsOrN (a b : ℕ) : ℕ := if a = 0 then b else a

/-- JS `Math.round`: round half away from zero is `⌊x + 1/2⌋` for the
non-negative values the program rounds here. -/
def jsRound (q : ℚ) : ℤ := ⌊q + 1/2⌋

/-- Targets of a single damage application issued by the tick. -/
inductive DmgTarget where
  | mobT (id : ℕ)
  | playerT (id : ℕ)
  deriving DecidableEq, Repr

/-- One damage call issued by the combat code: which entity, how much. -/
structure DmgCall where
  target : DmgTarget
  amount : ℚ
  deriving DecidableEq, Repr

/-- Static mob-type definition (`mobDefs` entries in src/server.js:775-779). -/
structure MobDef where
  maxHp : ℚ
  atk : ℚ
  speed : ℚ
  xp : ℕ
  goldMin : ℚ
  goldMax : ℚ
  respawn : ℚ
  radius : ℚ
  deriving DecidableEq, Repr

/-- Mob runtime record (`spawnMobAt` in src/server.js:357-393). -/
structure Mob where
  id : ℕ
  x : ℚ
  y : ℚ
  hp : ℚ
  maxHp : ℚ
  radius : ℚ
  damageContrib : List (ℕ × ℚ)
  mdef : MobDef
  respawnAt : Option ℚ
  dead : Bool
  stunnedUntil : ℚ
  deriving DecidableEq, Repr

/-- Buff entry `\x7btype, multiplier, until\x7d`. -/
structure Buff where
  isDamage : Bool
  multiplier : ℚ
  untilMs : ℚ
  deriving DecidableEq, Repr

/-- Matchmaking-variant player record (join handler, src/server.js:1078-1089).
Cooldowns `cooldowns.s1 .. cooldowns.s4` are the four slot fields, `0` when
unset (matching `player.cooldowns[cdKey] || 0`). -/
structure MPlayer where
  id : ℕ
  x : ℚ
  y : ℚ
  radius : ℚ
  hp : ℚ
  maxHp : ℚ
  xp : ℕ
  nextLevelXp : ℕ
  level : ℕ
  gold : ℚ
  invulnerableUntil : ℚ
  cd1 : ℚ
  cd2 : ℚ
  cd3 : ℚ
  cd4 : ℚ
  buffs : List Buff
  damageMul : ℚ
  buffDurationMul : ℚ
  stunnedUntil : ℚ
  kills : ℕ
  deriving DecidableEq, Repr

/-- Single-world-variant player record (`createPlayerRuntime`,
src/unnamed/part_001:262-281).  It has gold and xp but NO kill counter. -/
structure SPlayer where
  id : ℕ
  x : ℚ
  y : ℚ
  radius : ℚ
  hp : ℚ
  maxHp : ℚ
  gold : ℤ
  xp : ℕ
  invulnerableUntil : ℚ
  stunnedUntil : ℚ
  deriving DecidableEq, Repr

/-- Record a damage contribution under an attacker id:
`mob.damageContrib[playerId] = (mob.damageContrib[playerId] || 0) + amount`.
Object property update keeps existing keys in place and appends new ones. -/
def recordContrib (ledger : List (ℕ × ℚ)) (pid : ℕ) (amt : ℚ) : List (ℕ × ℚ) :=
  match ledger with
  | [] => [(pid, amt)]
  | (k, v) :: rest =>
      if k = pid then (k, v + amt) :: rest else (k, v) :: recordContrib rest pid amt

/-- Enumeration order of `for (const pid in mob.damageContrib)`: the ledger
keys are canonical integer strings (player ids), which ECMAScript enumerates
in ascending numeric order regardless of insertion order. -/
def ledgerForInOrder (ledger : List (ℕ × ℚ)) : List (ℕ × ℚ) :=
  List.insertionSort (fun a b => a.1 ≤ b.1) ledger

/-- Top-contributor scan of `handleMobDeath` (src/server.js:693-698):
`topId` starts at `killerId || null`, `topDmg` at 0, and each enumerated entry
with damage strictly greater than the current best replaces it. -/
def topContrib (killerId : Option ℕ) (ledger : List (ℕ × ℚ)) : Option ℕ :=
  ((ledgerForInOrder ledger).foldl
    (fun (acc : Option ℕ × ℚ) e => if e.2 > acc.2 then (some e.1, e.2) else acc)
    (killerId, (0 : ℚ))).1

/-- Broadcast events emitted by the embedded code (socket payload details that
no claim mentions are elided from the constructors). -/
inductive GEvent where
  | mobHurt (mobId : ℕ) (hp : ℤ) (damage : ℤ) (sourceId : Option ℕ)
  | mobDied (mobId : ℕ) (killerId : Option ℕ) (gold : ℤ) (xp : ℕ)
  | playerHurt (id : ℕ) (source : Option ℕ)
  | playerDied (id : ℕ) (killerId : Option ℕ)
  | leaderboardUpdate
  | playerLevelup (level : ℕ) (hpGain : ℚ)
  | stunEvt (target : DmgTarget) (untilMs : ℚ) (sourceId : Option ℕ)
  | playerHealed (id : ℕ) (hp : ℤ) (amount : ℤ)
  deriving DecidableEq, Repr

/-- Replace the (unique) player with the given id in the roster. -/
def updatePlayerById (ps : List MPlayer) (pid : ℕ) (f : MPlayer → MPlayer) : List MPlayer :=
  ps.map fun q => if q.id = pid then f q else q

/-- Level-up while-loop of `awardXpToPlayer` (src/server.js:747-760):
while `xp >= nextLevelXp`, subtract the threshold, bump level, add 50 maxHp,
heal 50 capped at the new maxHp, grow the threshold by `Math.ceil(req * 1.3)`
and on every level divisible by 5 grow the two persistent multipliers.
The loop guard carries the extra conjunct `1 ≤ nextLevelXp`: the caller
normalises `nextLevelXp` with `|| 100` before the loop and `⌈req * 1.3⌉ ≥ req`
preserves it, and with a zero threshold the JS loop would not terminate at all,
so no total function could model that (unreachable) case.  Returns the player
and the number of level-ups (`awardStep` is one loop-body iteration). -/
def awardStep (p : MPlayer) : MPlayer :=
  let req := p.nextLevelXp
  let lvl := jsOrN p.level 1 + 1
  let mh := jsOrQ p.maxHp 200 + 50
  { p with
    xp := p.xp - req
    level := lvl
    maxHp := mh
    hp := min mh (jsOrQ p.hp mh + 50)
    nextLevelXp := (Int.ceil ((req : ℚ) * 1.3)).toNat
    damageMul := if lvl % 5 = 0 then jsOrQ p.damageMul 1 * 1.3 else p.damageMul
    buffDurationMul := if lvl % 5 = 0 then jsOrQ p.buffDurationMul 1 * 1.1 else p.buffDurationMul }

/-- The while loop itself, iterating `awardStep` and counting level-ups. -/
def awardLoop (p : MPlayer) : MPlayer × ℕ :=
  if h : 1 ≤ p.nextLevelXp ∧ p.nextLevelXp ≤ p.xp then
    let r := awardLoop (awardStep p)
    (r.1, r.2 + 1)
  else (p, 0)
termination_by p.xp
decreasing_by
  show (awardStep p).xp < p.xp
  unfold awardStep
  exact Nat.sub_lt (Nat.lt_of_lt_of_le Nat.zero_lt_one (le_trans h.1 h.2)) h.1

/-- `MatchInstance.awardXpToPlayer` (src/server.js:741-771): accumulate the
XP, run the threshold loop, and emit one `player_levelup` event summarising
all level-ups of this award. -/
def awardXpToPlayer (p : MPlayer) (amount : ℕ) : MPlayer × List GEvent :=
  let p0 : MPlayer := { p with xp := p.xp + amount, nextLevelXp := jsOrN p.nextLevelXp 100 }
  let r := awardLoop p0
  (r.1, if r.2 ≠ 0 then [GEvent.playerLevelup r.1.level (50 * r.2)] else [])

/-- `MatchInstance.handleMobDeath` (src/server.js:690-714).  `u` is the
`Math.random()` draw of `randRange(goldMin, goldMax)` (`u ∈ [0,1)`), passed in
explicitly so the function is deterministic. -/
def handleMobDeath (now u : ℚ) (mob : Mob) (killerId : Option ℕ)
    (players : List MPlayer) : Mob × List MPlayer × List GEvent :=
  if mob.respawnAt.isSome then (mob, players, [])
  else
    let topId := topContrib killerId mob.damageContrib
    let gold : ℤ := jsRound (u * (mob.mdef.goldMax - mob.mdef.goldMin) + mob.mdef.goldMin)
    let xp := mob.mdef.xp
    let deadMob : Mob := { mob with
      respawnAt := some (now + jsOrQ mob.mdef.respawn 10 * 1000)
      hp := 0
      dead := true
      damageContrib := [] }
    match topId with
    | some t =>
      match players.find? (fun q => q.id = t) with
      | some killer =>
        let killer1 : MPlayer := { killer with gold := killer.gold + (gold : ℚ) }
        let ar := awardXpToPlayer killer1 xp
        (deadMob, updatePlayerById players t (fun _ => ar.1),
          ar.2 ++ [GEvent.mobDied mob.id (some t) gold xp])
      | none => (deadMob, players, [GEvent.mobDied mob.id none 0 0])
    | none => (deadMob, players, [GEvent.mobDied mob.id none 0 0])

/-- `MatchInstance.damageMob` (src/server.js:676-688): no-op on an already
dead mob; otherwise subtract, record the contribution, broadcast `mob_hurt`,
and on a lethal hit run death handling unless a respawn is already scheduled. -/
def damageMob (now u : ℚ) (mob : Mob) (amount : ℚ) (playerId : Option ℕ)
    (players : List MPlayer) : Mob × List MPlayer × List GEvent :=
  if mob.hp ≤ 0 then (mob, players, [])
  else
    let hp' := mob.hp - amount
    let ledger' := match playerId with
      | some pid => recordContrib mob.damageContrib pid amount
      | none => mob.damageContrib
    let m1 : Mob := { mob with hp := hp', damageContrib := ledger' }
    let hurt := GEvent.mobHurt mob.id (max 0 (jsRound hp')) (jsRound amount) playerId
    if hp' ≤ 0 then
      if m1.respawnAt.isSome then (m1, players, [hurt])
      else
        let r := handleMobDeath now u m1 playerId players
        (r.1, r.2.1, hurt :: r.2.2)
    else (m1, players, [hurt])

/-- The early `handleMobDeath` of src/unnamed/part_002:173-192: same award
logic, but WITHOUT the `if (mob.respawnAt) return` guard, without a fallback
killer id, and crediting gold/xp directly (that variant has no leveling).
Players of that variant are `SPlayer`s. -/
def handleMobDeathV0 (now u : ℚ) (mob : Mob) (players : List SPlayer) :
    Mob × List SPlayer × List GEvent :=
  let topId := topContrib none mob.damageContrib
  let gold : ℤ := jsRound (u * (mob.mdef.goldMax - mob.mdef.goldMin) + mob.mdef.goldMin)
  let xp := mob.mdef.xp
  let deadMob : Mob := { mob with
    respawnAt := some (now + mob.mdef.respawn * 1000)
    hp := 0
    damageContrib := [] }
  match topId with
  | some t =>
    match players.find? (fun q => q.id = t) with
    | some _ =>
      (deadMob,
        players.map (fun q => if q.id = t then { q with gold := q.gold + gold, xp := q.xp + xp } else q),
        [GEvent.mobDied mob.id (some t) gold xp])
    | none => (deadMob, players, [GEvent.mobDied mob.id none 0 0])
  | none => (deadMob, players, [GEvent.mobDied mob.id none 0 0])

/-- `handlePlayerDeath` of the matchmaking variant
(`MatchInstance.handlePlayerDeath`, src/server.js:727-739): when the killer id
resolves to a player of the match, increment that player's kill counter and
broadcast the updated leaderboard; in every case pin the victim's hp to 0.
It does NOT touch anyone's gold. -/
def handlePlayerDeathMM (players : List MPlayer) (victimId : ℕ) (killerId : Option ℕ) :
    List MPlayer × List GEvent :=
  let killerIs : Bool := match killerId with
    | some k => (players.find? (fun q => q.id = k)).isSome
    | none => false
  let ps1 := match killerId with
    | some k => if killerIs then updatePlayerById players k (fun q => { q with kills := q.kills + 1 }) else players
    | none => players
  (updatePlayerById ps1 victimId (fun q => { q with hp := 0 }),
    if killerIs then [GEvent.leaderboardUpdate] else [])

/-- `handlePlayerDeath` of the single-world variant
(src/unnamed/part_001:355-366): when the killer id resolves to a player,
steal `Math.floor(victim.gold * 0.05)` from the victim (clamped at 0) and give
it to the killer; in every case pin the victim's hp to 0.  That variant has
no kill counter at all. -/
def handlePlayerDeathSW (players : List SPlayer) (victimId : ℕ) (killerId : Option ℕ) :
    List SPlayer :=
  let victimGold : ℤ := match players.find? (fun q => q.id = victimId) with
    | some v => v.gold
    | none => 0
  let killerIs : Bool := match killerId with
    | some k => (players.find? (fun q => q.id = k)).isSome
    | none => false
  let stolen : ℤ := ⌊(Int.cast victimGold : ℚ) * (0.05 : ℚ)⌋
  let ps1 := if killerIs = true ∧ 0 < stolen then
      (players.map (fun q => if q.id = victimId then { q with gold := max 0 (q.gold - stolen) } else q)).map
        (fun q => if some q.id = killerId then { q with gold := q.gold + stolen } else q)
    else players
  ps1.map (fun q => if q.id = victimId then { q with hp := 0 } else q)

/-- Player classes (`SKILL_DEFS` keys).  An unknown class string falls back to
the warrior skill table and 6000 ms cooldowns in the handler; clients only send
these three, so the fallback path is not modelled. -/
inductive PClass where
  | warrior
  | ranger
  | mage
  deriving DecidableEq, Repr

/-- Skill kinds of the matchmaking variant (src/server.js:782-801). -/
inductive SkillKind where
  | melee
  | aoe
  | aoeStun
  | buffS
  | projTarget
  | projTargetStun
  | projBurst
  | projAoeSpread
  deriving DecidableEq, Repr

/-- Skill definition fields used on the cast-validation path (absent JS fields
are 0, which is also how the handler's `|| default` treats them). -/
structure SkillDef where
  kind : SkillKind
  damage : ℚ
  speed : ℚ
  sradius : ℚ
  ttlMs : ℚ
  stunMs : ℚ
  deriving DecidableEq, Repr

/-- `SKILL_DEFS` (src/server.js:782-801). -/
def skillDefs (c : PClass) (i : Fin 4) : SkillDef :=
  match c, i with
  | .warrior, 0 => ⟨.melee, 60, 0, 0, 0, 0⟩
  | .warrior, 1 => ⟨.aoeStun, 40, 0, 48, 0, 3000⟩
  | .warrior, 2 => ⟨.aoe, 10, 0, 80, 0, 0⟩
  | .warrior, 3 => ⟨.buffS, 0, 0, 0, 0, 0⟩
  | .ranger, 0 => ⟨.projTarget, 40, 680, 6, 3000, 0⟩
  | .ranger, 1 => ⟨.projBurst, 20, 720, 5, 2500, 0⟩
  | .ranger, 2 => ⟨.projTargetStun, 12, 380, 8, 1600, 3000⟩
  | .ranger, 3 => ⟨.projTarget, 120, 880, 7, 3500, 0⟩
  | .mage, 0 => ⟨.projTarget, 45, 420, 10, 3000, 0⟩
  | .mage, 1 => ⟨.projTarget, 135, 360, 10, 3000, 0⟩
  | .mage, 2 => ⟨.projTargetStun, 60, 0, 0, 0, 3000⟩
  | .mage, 3 => ⟨.projAoeSpread, 45, 520, 12, 3200, 0⟩

/-- `CLASS_COOLDOWNS_MS` (src/server.js:802-806). -/
def classCooldownsMs (c : PClass) (i : Fin 4) : ℚ :=
  match c, i with
  | .warrior, 0 => 3500
  | .warrior, 1 => 7000
  | .warrior, 2 => 10000
  | .warrior, 3 => 25000
  | .ranger, 0 => 2000
  | .ranger, 1 => 25000
  | .ranger, 2 => 12000
  | .ranger, 3 => 4000
  | .mage, 0 => 2500
  | .mage, 1 => 5000
  | .mage, 2 => 25000
  | .mage, 3 => 10000

/-- The single string id space tested against `match.mobs.has(targetId)` and
then `match.players.has(targetId)`: mob keys (`mob_N`) and player keys (`N`)
are disjoint, so the key is a tagged id. -/
inductive TargetKey where
  | mobKey (id : ℕ)
  | playerKey (id : ℕ)
  deriving DecidableEq, Repr

/-- Cast request payload (slot is an integer from the client; a fractional
slot would merely make the skill lookup fail and drop the cast). -/
structure CastMsg where
  slot : ℤ
  cls : PClass
  targetId : Option TargetKey
  deriving DecidableEq, Repr

/-- Rejection reasons sent in `cast_rejected` messages. -/
inductive CastReason where
  | cooldown
  | noTarget
  | invalidTarget
  deriving DecidableEq, Repr

/-- Result of a cast request at the validation boundary.  `effected k` marks a
cast that passed validation and applied the in-world effect of a non-target
kind; `spawnedProjectile` marks a successful `proj_target*` cast (the
projectile's heading, computed with `atan2`/`cos`/`sin` toward the target's
current position, is irrelevant to the claims on this path). -/
inductive CastOutcome where
  | rejected (reason : CastReason) (slot : ℤ)
  | dropped
  | spawnedProjectile (target : TargetKey) (sdef : SkillDef)
  | effected (kind : SkillKind)
  deriving DecidableEq, Repr

/-- Slot index: the handler clamps `slot` into `[1,4]`; this maps the clamped
value to the array index `slot - 1`. -/
def slotFin (slot : ℤ) : Fin 4 :=
  if slot ≤ 1 then 0 else if slot = 2 then 1 else if slot = 3 then 2 else 3

/-- Read `player.cooldowns[s{slot}] || 0` (fields default to 0). -/
def getCd (p : MPlayer) (i : Fin 4) : ℚ :=
  match i with
  | 0 => p.cd1
  | 1 => p.cd2
  | 2 => p.cd3
  | 3 => p.cd4

/-- Write `player.cooldowns[s{slot}] = v`. -/
def setCd (p : MPlayer) (i : Fin 4) (v : ℚ) : MPlayer :=
  match i with
  | 0 => { p with cd1 := v }
  | 1 => { p with cd2 := v }
  | 2 => { p with cd3 := v }
  | 3 => { p with cd4 := v }

/-- The `cast` message handler of the matchmaking variant
(src/server.js:1151-1298), embedded up to the effect application:
clamp the slot, reject with `cooldown` while `now < cooldownUntil[slot]`,
silently drop casts of a dead player, then write the slot cooldown
`now + cdMs` BEFORE resolving any target, and only then resolve
`proj_target*` targets (rejecting `no_target` / `invalid_target`) or apply
the effect of the other kinds. -/
def castStep (now : ℚ) (msg : CastMsg) (p : MPlayer) (mobs : List Mob)
    (players : List MPlayer) : MPlayer × CastOutcome :=
  let slot : ℤ := max 1 (min 4 msg.slot)
  let idx := slotFin slot
  let cdUntil := getCd p idx
  if now < cdUntil then (p, .rejected .cooldown slot)
  else if p.hp ≤ 0 then (p, .dropped)
  else
    let sdef := skillDefs msg.cls idx
    let cdMs := jsOrQ (classCooldownsMs msg.cls idx) 6000
    let p' := setCd p idx (now + cdMs)
    match sdef.kind with
    | .projTarget | .projTargetStun =>
      (match msg.targetId with
       | none => (p', .rejected .noTarget slot)
       | some t =>
         let resolvable : Bool := match t with
           | .mobKey m => (mobs.find? (fun mb => mb.id = m)).isSome
           | .playerKey q => (players.find? (fun pl => pl.id = q)).isSome
         if resolvable then (p', .spawnedProjectile t sdef)
         else (p', .rejected .invalidTarget slot))
    | k => (p', .effected k)

/-- Outcome of one `chat` message. -/
inductive ChatOut where
  | blocked
  | sent (text : List Char)
  deriving DecidableEq, Repr

/-- The regex `text.replace(/[\r\n]+/g, ' ')`: each maximal run of CR/LF
characters becomes a single space. -/
def stripNlRuns : List Char → List Char
  | [] => []
  | c :: rest =>
    if c == '\r' || c == '\n' then
      ' ' :: stripNlRuns (rest.dropWhile (fun d => d == '\r' || d == '\n'))
    else c :: stripNlRuns rest
termination_by l => l.length
decreasing_by
  · exact Nat.lt_succ_of_le (List.dropWhile_sublist _).length_le
  · exact Nat.lt_succ_self _

/-- Chat text sanitisation: strip newline runs, then `.slice(0, 240)`. -/
def sanitizeChat (text : List Char) : List Char :=
  (stripNlRuns text).take 240

/-- The `chat` message handler (src/server.js:181-207 and, identically,
src/server.js:1138-1148): drop timestamps older than the rolling 1000 ms
window, block when 2 survive, otherwise record `now` and broadcast the
sanitised text. -/
def chatStep (now : ℚ) (text : List Char) (timestamps : List ℚ) :
    List ℚ × ChatOut :=
  let ts1 := timestamps.filter (fun ts => now - ts < 1000)
  if ts1.length ≥ 2 then (ts1, .blocked)
  else (ts1 ++ [now], .sent (sanitizeChat text))

/-- One player's step of the passive-healing sweep
(src/unnamed/part_001:551-566): skip dead players entirely; otherwise heal
`Math.max(1, Math.ceil(maxHp * 0.10))` capped at maxHp and emit a
`player_healed` event when the rounded delta is positive. -/
def healStep (p : SPlayer) : SPlayer × Option GEvent :=
  if p.hp ≤ 0 then (p, none)
  else
    let m := jsOrQ p.maxHp 200
    let healAmount : ℚ := max 1 ((⌈m * (0.10 : ℚ)⌉ : ℤ) : ℚ)
    let hp' := min m (p.hp + healAmount)
    let actual : ℤ := jsRound (hp' - p.hp)
    ({ p with hp := hp' },
      if 0 < actual then some (.playerHealed p.id (jsRound hp') actual) else none)

/-- The portion of the player state that the leveling rule touches. -/
structure LevelState where
  xp : ℕ
  level : ℕ
  nextLevelXp : ℕ
  maxHp : ℚ
  hp : ℚ
  damageMul : ℚ
  buffDurationMul : ℚ
  deriving DecidableEq, Repr

/-- Modelled from the spec: the deterministic threshold loop of
`awardXpToPlayer` as the spec words it — while `xp ≥ nextLevelXp`: subtract
the threshold, increment level, add +50 maxHp, heal by 50 capped at the new
maxHp, set the threshold to `⌈previous · 1.3⌉`, and on every level divisible
by 5 multiply the damage multiplier by 1.3 and the buff-duration multiplier
by 1.1.  (The guard's `1 ≤ nextLevelXp` conjunct keeps the loop well-founded;
the spec's loop is only meaningful for positive thresholds.) -/
def specStep (s : LevelState) : LevelState :=
  { s with
    xp := s.xp - s.nextLevelXp
    level := s.level + 1
    maxHp := s.maxHp + 50
    hp := min (s.maxHp + 50) (s.hp + 50)
    nextLevelXp := (Int.ceil ((s.nextLevelXp : ℚ) * 1.3)).toNat
    damageMul := if (s.level + 1) % 5 = 0 then s.damageMul * 1.3 else s.damageMul
    buffDurationMul := if (s.level + 1) % 5 = 0 then s.buffDurationMul * 1.1 else s.buffDurationMul }

/-- Modelled from the spec: iterate the threshold step while `xp ≥ nextLevelXp`. -/
def specLevelLoop (s : LevelState) : LevelState :=
  if h : 1 ≤ s.nextLevelXp ∧ s.nextLevelXp ≤ s.xp then specLevelLoop (specStep s)
  else s
termination_by s.xp
decreasing_by
  show (specStep s).xp < s.xp
  unfold specStep
  exact Nat.sub_lt (Nat.lt_of_lt_of_le Nat.zero_lt_one (le_trans h.1 h.2)) h.1

/-- Modelled from the spec: award = accumulate, then run the threshold loop. -/
def specAward (s : LevelState) (amount : ℕ) : LevelState :=
  specLevelLoop { s with xp := s.xp + amount }

/-- The leveling-relevant view of an `MPlayer`. -/
def toLevelState (p : MPlayer) : LevelState :=
  ⟨p.xp, p.level, p.nextLevelXp, p.maxHp, p.hp, p.damageMul, p.buffDurationMul⟩

/-- Squared distance; `Math.hypot(x1-x2, y1-y2) ≤ r` is embedded as
`distSq ≤ r²` (equivalent for `r ≥ 0`). -/
def distSq (x1 y1 x2 y2 : ℚ) : ℚ :=
  (x1 - x2) ^ 2 + (y1 - y2) ^ 2

/-- `MatchInstance.applyDamageToPlayer` (src/server.js:716-725): no-op on a
missing or dead target; otherwise subtract, and either run death handling and
broadcast `player_died`, or broadcast `player_hurt`. -/
def applyDamageToPlayerMM (players : List MPlayer) (targetId : ℕ) (amount : ℚ)
    (attackerId : Option ℕ) : List MPlayer × List GEvent :=
  match players.find? (fun q => q.id = targetId) with
  | none => (players, [])
  | some t =>
    if t.hp ≤ 0 then (players, [])
    else
      let hp' := t.hp - amount
      let ps1 := updatePlayerById players targetId (fun q => { q with hp := hp' })
      if hp' ≤ 0 then
        let r := handlePlayerDeathMM ps1 targetId attackerId
        (r.1, r.2 ++ [.playerDied targetId attackerId])
      else (ps1, [.playerHurt targetId attackerId])

/-- Matchmaking-variant projectile (created at src/server.js:1250). -/
structure Projectile where
  pid : ℕ
  x : ℚ
  y : ℚ
  vx : ℚ
  vy : ℚ
  radius : ℚ
  ownerId : ℕ
  damage : ℚ
  ttl : ℚ
  stunMs : ℚ
  deriving DecidableEq, Repr

/-- Why a projectile left the projectile map. -/
inductive ProjReason where
  | ttlExpired
  | hitRemoved
  deriving DecidableEq, Repr

/-- Result of processing one projectile for one tick. -/
structure ProjTickResult where
  removed : Option ProjReason
  proj : Projectile
  mobs : List Mob
  players : List MPlayer
  events : List GEvent
  calls : List DmgCall
  deriving DecidableEq, Repr

/-- One projectile's slice of `MatchInstance.tick` (src/server.js:602-644):
expire at TTL before anything else; otherwise integrate, clamp to the map,
then test live mobs (first match wins, then stop), then live non-owner
players; a hit applies one `damageMob`/`applyDamageToPlayer` call plus the
optional stun and removes the projectile.  `u` is the gold `Math.random()`
draw consumed if the hit kills a mob. -/
def projectileTick (now dt half u : ℚ) (mobs : List Mob) (players : List MPlayer)
    (proj : Projectile) : ProjTickResult :=
  if proj.ttl ≠ 0 ∧ now ≥ proj.ttl then ⟨some .ttlExpired, proj, mobs, players, [], []⟩
  else
    let r6 := jsOrQ proj.radius 6
    let xa := proj.x + proj.vx * dt
    let ya := proj.y + proj.vy * dt
    let limit := half - r6 - 1
    let xb := if xa > limit then limit else xa
    let xc := if xb < -limit then -limit else xb
    let yb := if ya > limit then limit else ya
    let yc := if yb < -limit then -limit else yb
    let moved : Projectile := { proj with x := xc, y := yc }
    match mobs.find? (fun m =>
        decide (¬ m.hp ≤ 0) && decide (distSq xc yc m.x m.y ≤ (r6 + jsOrQ m.radius 12) ^ 2)) with
    | some m =>
      let dmg := damageMob now u m proj.damage (some proj.ownerId) players
      let m2 := if proj.stunMs ≠ 0 then { dmg.1 with stunnedUntil := now + proj.stunMs } else dmg.1
      let mobs' := mobs.map (fun mm => if mm.id = m.id then m2 else mm)
      let stunEvts := if proj.stunMs ≠ 0 then
          [GEvent.stunEvt (.mobT m.id) (now + proj.stunMs) (some proj.ownerId)] else []
      ⟨some .hitRemoved, moved, mobs', dmg.2.1, dmg.2.2 ++ stunEvts, [⟨.mobT m.id, proj.damage⟩]⟩
    | none =>
      match players.find? (fun q =>
          decide (¬ q.id = proj.ownerId) && decide (¬ q.hp ≤ 0) &&
          decide (distSq xc yc q.x q.y ≤ (r6 + jsOrQ q.radius 12) ^ 2)) with
      | some q =>
        let ar := applyDamageToPlayerMM players q.id proj.damage (some proj.ownerId)
        let ps2 := if proj.stunMs ≠ 0 then
            updatePlayerById ar.1 q.id (fun w => { w with stunnedUntil := now + proj.stunMs })
          else ar.1
        let stunEvts := if proj.stunMs ≠ 0 then
            [GEvent.stunEvt (.playerT q.id) (now + proj.stunMs) (some proj.ownerId)] else []
        ⟨some .hitRemoved, moved, mobs, ps2, ar.2 ++ stunEvts, [⟨.playerT q.id, proj.damage⟩]⟩
      | none => ⟨none, moved, mobs, players, [], []⟩

/-- World contents seen by one projectile on one tick. -/
structure TickEnv where
  now : ℚ
  mobs : List Mob
  players : List MPlayer
  u : ℚ
  deriving Repr

/-- Fate of a projectile over a run of ticks. -/
inductive RunOutcome where
  | removedAt (idx : ℕ) (reason : ProjReason) (calls : List DmgCall)
  | alive (proj : Projectile)
  deriving DecidableEq, Repr

/-- Iterate `projectileTick` over consecutive tick environments, starting the
tick count at `i`; the projectile is deleted the first tick it expires or
hits. -/
def projRun (dt half : ℚ) (i : ℕ) : List TickEnv → Projectile → RunOutcome
  | [], p => .alive p
  | e :: rest, p =>
    let r := projectileTick e.now dt half e.u e.mobs e.players p
    match r.removed with
    | some reason => .removedAt i reason r.calls
    | none => projRun dt half (i + 1) rest r.proj

/-- `handleMobDeath` of the single-world variant (src/unnamed/part_001:321-343):
like the matchmaking one but the killer's xp is credited directly (that
variant has no leveling). -/
def handleMobDeathSW (now u : ℚ) (mob : Mob) (killerId : Option ℕ)
    (players : List SPlayer) : Mob × List SPlayer × List GEvent :=
  if mob.respawnAt.isSome then (mob, players, [])
  else
    let topId := topContrib killerId mob.damageContrib
    let gold : ℤ := jsRound (u * (mob.mdef.goldMax - mob.mdef.goldMin) + mob.mdef.goldMin)
    let xp := mob.mdef.xp
    let deadMob : Mob := { mob with
      respawnAt := some (now + jsOrQ mob.mdef.respawn 10 * 1000)
      hp := 0
      dead := true
      damageContrib := [] }
    match topId with
    | some t =>
      match players.find? (fun q => q.id = t) with
      | some _ =>
        (deadMob,
          players.map (fun q => if q.id = t then { q with gold := q.gold + gold, xp := q.xp + xp } else q),
          [GEvent.mobDied mob.id (some t) gold xp])
      | none => (deadMob, players, [GEvent.mobDied mob.id none 0 0])
    | none => (deadMob, players, [GEvent.mobDied mob.id none 0 0])

/-- `damageMob` of the single-world variant (src/unnamed/part_001:307-320). -/
def damageMobSW (now u : ℚ) (mob : Mob) (amount : ℚ) (playerId : Option ℕ)
    (players : List SPlayer) : Mob × List SPlayer × List GEvent :=
  if mob.hp ≤ 0 then (mob, players, [])
  else
    let hp' := mob.hp - amount
    let ledger' := match playerId with
      | some pid => recordContrib mob.damageContrib pid amount
      | none => mob.damageContrib
    let m1 : Mob := { mob with hp := hp', damageContrib := ledger' }
    let hurt := GEvent.mobHurt mob.id (max 0 (jsRound hp')) (jsRound amount) playerId
    if hp' ≤ 0 then
      if m1.respawnAt.isSome then (m1, players, [hurt])
      else
        let r := handleMobDeathSW now u m1 playerId players
        (r.1, r.2.1, hurt :: r.2.2)
    else (m1, players, [hurt])

/-- `applyDamageToPlayer` of the single-world variant
(src/unnamed/part_001:345-353). -/
def applyDamageToPlayerSWL (players : List SPlayer) (targetId : ℕ) (amount : ℚ)
    (attackerId : Option ℕ) : List SPlayer × List GEvent :=
  match players.find? (fun q => q.id = targetId) with
  | none => (players, [])
  | some t =>
    if t.hp ≤ 0 then (players, [])
    else
      let hp' := t.hp - amount
      let ps1 := players.map (fun q => if q.id = targetId then { q with hp := hp' } else q)
      if hp' ≤ 0 then
        (handlePlayerDeathSW ps1 targetId attackerId, [.playerDied targetId attackerId])
      else (ps1, [.playerHurt targetId attackerId])

/-- Tag for `proj.kind` strings of the single-world variant; `explodeK` models
`'proj_explode'`. -/
inductive PKind where
  | targetK
  | burstK
  | arcaneK
  | explodeK
  deriving DecidableEq, Repr

/-- Single-world-variant projectile, with the optional explosion payload. -/
structure ProjectileX where
  pid : ℕ
  x : ℚ
  y : ℚ
  vx : ℚ
  vy : ℚ
  radius : ℚ
  ownerId : ℕ
  damage : ℚ
  ttl : ℚ
  stunMs : ℚ
  kind : PKind
  explodeRadius : ℚ
  deriving DecidableEq, Repr

/-- Explosion sweep over the mobs (src/unnamed/part_001:503-507 and 525-529):
every live mob within `explodeRadius + radius` of the impact point takes a
`damageMob` call, in map-iteration order, over the evolving world state. -/
def explodeMobs (now u px py explodeR damage : ℚ) (ownerId : ℕ)
    (mobs : List Mob) (players : List SPlayer) :
    List Mob × List SPlayer × List GEvent × List DmgCall :=
  (mobs.map (fun m => m.id)).foldl
    (fun acc mid =>
      match acc.1.find? (fun mm => mm.id = mid) with
      | none => acc
      | some m2 =>
        if decide (¬ m2.hp ≤ 0) &&
            decide (distSq px py m2.x m2.y ≤ (explodeR + jsOrQ m2.radius 12) ^ 2) then
          let r := damageMobSW now u m2 damage (some ownerId) acc.2.1
          (acc.1.map (fun mm => if mm.id = mid then r.1 else mm), r.2.1,
            acc.2.2.1 ++ r.2.2, acc.2.2.2 ++ [⟨.mobT mid, damage⟩])
        else acc)
    (mobs, players, [], [])

/-- Explosion sweep over the players (src/unnamed/part_001:520-524): every
live player within `explodeRadius + radius` of the impact point takes an
`applyDamageToPlayer` call — with NO exclusion of the projectile's owner. -/
def explodePlayers (px py explodeR damage : ℚ) (ownerId : ℕ)
    (players : List SPlayer) : List SPlayer × List GEvent × List DmgCall :=
  (players.map (fun q => q.id)).foldl
    (fun acc qid =>
      match acc.1.find? (fun q => q.id = qid) with
      | none => acc
      | some q =>
        if decide (¬ q.hp ≤ 0) &&
            decide (distSq px py q.x q.y ≤ (explodeR + jsOrQ q.radius 12) ^ 2) then
          let r := applyDamageToPlayerSWL acc.1 qid damage (some ownerId)
          (r.1, acc.2.1 ++ r.2, acc.2.2 ++ [⟨.playerT qid, damage⟩])
        else acc)
    (players, [], [])

/-- Result of processing one single-world projectile for one tick. -/
structure ProjTickResultX where
  removed : Option ProjReason
  proj : ProjectileX
  mobs : List Mob
  players : List SPlayer
  events : List GEvent
  calls : List DmgCall
  deriving DecidableEq, Repr

/-- One projectile's slice of the single-world `serverTick`
(src/unnamed/part_001:489-535): as in the matchmaking variant, but a
`proj_explode` projectile with positive `explodeRadius` applies area damage
on its first impact — to every live mob around a mob impact, and to every
live player (owner included) plus every live mob around a player impact. -/
def projectileTickX (now dt half u : ℚ) (mobs : List Mob) (players : List SPlayer)
    (proj : ProjectileX) : ProjTickResultX :=
  if proj.ttl ≠ 0 ∧ now ≥ proj.ttl then ⟨some .ttlExpired, proj, mobs, players, [], []⟩
  else
    let r6 := jsOrQ proj.radius 6
    let xa := proj.x + proj.vx * dt
    let ya := proj.y + proj.vy * dt
    let limit := half - r6 - 1
    let xb := if xa > limit then limit else xa
    let xc := if xb < -limit then -limit else xb
    let yb := if ya > limit then limit else ya
    let yc := if yb < -limit then -limit else yb
    let moved : ProjectileX := { proj with x := xc, y := yc }
    let isExplode : Bool := decide (proj.kind = .explodeK) &&
      decide (proj.explodeRadius ≠ 0) && decide (proj.explodeRadius > 0)
    match mobs.find? (fun m =>
        decide (¬ m.hp ≤ 0) && decide (distSq xc yc m.x m.y ≤ (r6 + jsOrQ m.radius 12) ^ 2)) with
    | some m =>
      let body :=
        if isExplode then
          let em := explodeMobs now u xc yc proj.explodeRadius proj.damage proj.ownerId mobs players
          (em.1, em.2.1, em.2.2.1, em.2.2.2)
        else
          let dmg := damageMobSW now u m proj.damage (some proj.ownerId) players
          (mobs.map (fun mm => if mm.id = m.id then dmg.1 else mm), dmg.2.1, dmg.2.2,
            [(⟨.mobT m.id, proj.damage⟩ : DmgCall)])
      let mobs2 := if proj.stunMs ≠ 0 then
          body.1.map (fun mm => if mm.id = m.id then { mm with stunnedUntil := now + proj.stunMs } else mm)
        else body.1
      let stunEvts := if proj.stunMs ≠ 0 then
          [GEvent.stunEvt (.mobT m.id) (now + proj.stunMs) (some proj.ownerId)] else []
      ⟨some .hitRemoved, moved, mobs2, body.2.1, body.2.2.1 ++ stunEvts, body.2.2.2⟩
    | none =>
      match players.find? (fun q =>
          decide (¬ q.id = proj.ownerId) && decide (¬ q.hp ≤ 0) &&
          decide (distSq xc yc q.x q.y ≤ (r6 + jsOrQ q.radius 12) ^ 2)) with
      | some q =>
        let body :=
          if isExplode then
            let ep := explodePlayers xc yc proj.explodeRadius proj.damage proj.ownerId players
            let em := explodeMobs now u xc yc proj.explodeRadius proj.damage proj.ownerId mobs ep.1
            (em.1, em.2.1, ep.2.1 ++ em.2.2.1, ep.2.2 ++ em.2.2.2)
          else
            let ar := applyDamageToPlayerSWL players q.id proj.damage (some proj.ownerId)
            (mobs, ar.1, ar.2, [(⟨.playerT q.id, proj.damage⟩ : DmgCall)])
        let ps2 := if proj.stunMs ≠ 0 then
            body.2.1.map (fun w => if w.id = q.id then { w with stunnedUntil := now + proj.stunMs } else w)
          else body.2.1
        let stunEvts := if proj.stunMs ≠ 0 then
            [GEvent.stunEvt (.playerT q.id) (now + proj.stunMs) (some proj.ownerId)] else []
        ⟨some .hitRemoved, moved, body.1, ps2, body.2.2.1 ++ stunEvts, body.2.2.2⟩
      | none => ⟨none, moved, mobs, players, [], []⟩

noncomputable section

/-- A polygon vertex (real coordinates; the wall geometry pushes actual
`Math.hypot` square-root values into positions, so this section is over `ℝ`). -/
structure GPt where
  x : ℝ
  y : ℝ

/-- The mutable `\x7bx, y, vx, vy, radius\x7d` view of a player inside the
movement phase of the tick. -/
structure GEnt where
  x : ℝ
  y : ℝ
  vx : ℝ
  vy : ℝ
  radius : ℝ

/-- Edge list `(pts[i], pts[(i+1) % n])` of the push-resolution loop
(src/server.js:545-547). -/
def polyEdgesFwd (poly : List GPt) : List (GPt × GPt) :=
  poly.zip (poly.rotate 1)

/-- Vertex pairs `(pts[i], pts[j])`, `j = i - 1` cyclically, of the inline
ray-casting loop (src/server.js:563-568). -/
def polyEdgesRC (poly : List GPt) : List (GPt × GPt) :=
  poly.zip (poly.rotate (poly.length - 1))

/-- The inline even-odd ray-casting test of `MatchInstance.tick`
(src/server.js:562-569); the JS `(yi > y) !== (yj > y)` Bool-inequality is
spelled as the equivalent explicit exclusive-or of the two comparisons. -/
def rayCastInside (px py : ℝ) (poly : List GPt) : Bool :=
  (polyEdgesRC poly).foldl
    (fun inside e =>
      let xi := e.1.x
      let yi := e.1.y
      let xj := e.2.x
      let yj := e.2.y
      if ((yi > py ∧ ¬ yj > py) ∨ (¬ yi > py ∧ yj > py)) ∧
          px < (xj - xi) * (py - yi) / (yj - yi + 0) + xi then !inside
      else inside)
    false

/-- Minimum-translation push candidate `\x7bnx, ny, overlap\x7d`. -/
structure WallPush where
  nx : ℝ
  ny : ℝ
  overlap : ℝ

/-- The raw projection parameter `t = dv > 0 ? (w·v)/dv : 0` of the edge scan
(src/server.js:551), before the `[0,1]` clamp. -/
def segParam (dv dot : ℝ) : ℝ := if dv > 0 then dot / dv else 0

/-- The unit push normal of one edge: `(-vy, vx)` normalised by
`Math.hypot(nx, ny) || 1` and negated when the closest point ray-casts as
inside the polygon (src/server.js:559-570). -/
def edgeNormal (vx vy : ℝ) (inside : Bool) : ℝ × ℝ :=
  let nx0 := -vy
  let ny0 := vx
  let nlen := Real.sqrt (nx0 * nx0 + ny0 * ny0)
  let nlen1 := if nlen = 0 then 1 else nlen
  (if inside then -(nx0 / nlen1) else nx0 / nlen1,
   if inside then -(ny0 / nlen1) else ny0 / nlen1)

open Classical in
/-- One iteration of the per-edge loop of the polygon wall resolution in
`MatchInstance.tick` (src/server.js:545-571): distance from the player centre
to the edge segment, candidate push along the edge normal with the smallest
positive overlap so far. -/
def edgeScanStep (p : GEnt) (poly : List GPt) (acc : Option WallPush)
    (e : GPt × GPt) : Option WallPush :=
  let a := e.1
  let b := e.2
  let vx := b.x - a.x
  let vy := b.y - a.y
  let wx := p.x - a.x
  let wy := p.y - a.y
  let dv := vx * vx + vy * vy
  let t := max 0 (min 1 (segParam dv (wx * vx + wy * vy)))
  let cx := a.x + vx * t
  let cy := a.y + vy * t
  let dx := p.x - cx
  let dy := p.y - cy
  let d := Real.sqrt (dx * dx + dy * dy)
  let overlap := p.radius - d
  let keep : Prop := match acc with
    | none => 0 < overlap
    | some w => 0 < overlap ∧ overlap < w.overlap
  if keep then
    let n := edgeNormal vx vy (rayCastInside cx cy poly)
    some ⟨n.1, n.2, overlap⟩
  else acc

/-- Scan every polygon edge in order, keeping the smallest positive overlap. -/
def wallScan (p : GEnt) (poly : List GPt) : Option WallPush :=
  (polyEdgesFwd poly).foldl (edgeScanStep p poly) none

/-- Apply the chosen push and cancel the velocity component into the wall
(src/server.js:573-578). -/
def resolvePolyMatch (p : GEnt) (poly : List GPt) : GEnt :=
  match wallScan p poly with
  | none => p
  | some pu =>
    let x' := p.x + pu.nx * pu.overlap
    let y' := p.y + pu.ny * pu.overlap
    let vn := p.vx * pu.nx + p.vy * pu.ny
    if vn > 0 then ⟨x', y', p.vx - vn * pu.nx, p.vy - vn * pu.ny, p.radius⟩
    else ⟨x', y', p.vx, p.vy, p.radius⟩

/-- The movement part of the per-player tick update (src/server.js:530-580):
integrate the staged input at `(baseSpeed || 380) * speedMultiplier`, clamp to
the map square, then resolve against every wall in list order
(`MatchInstance.tick` resolves polygon walls only; `speedMul` is the buff
product computed at src/server.js:520-526, 1 for a buffless player, and the
stunned-player early-out is not taken on this path). -/
def playerMovePhase (walls : List (List GPt)) (half inpx inpy speedMul baseSpeed dt : ℝ)
    (p : GEnt) : GEnt :=
  let speed := (if baseSpeed = 0 then 380 else baseSpeed) * speedMul
  let vx := inpx * speed
  let vy := inpy * speed
  let x1 := p.x + vx * dt
  let y1 := p.y + vy * dt
  let limit := half - p.radius - 1
  let x2 := if x1 > limit then limit else x1
  let x3 := if x2 < -limit then -limit else x2
  let y2 := if y1 > limit then limit else y1
  let y3 := if y2 < -limit then -limit else y2
  walls.foldl resolvePolyMatch ⟨x3, y3, vx, vy, p.radius⟩

/-- The square wall `[(0,0),(100,0),(100,100),(0,100)]` of the C8 scenario
(wall thickness 100 in both axes). -/
def sqWall : List GPt :=
  [⟨0, 0⟩, ⟨100, 0⟩, ⟨100, 100⟩, ⟨0, 100⟩]

/-- Squared distance from a point to the solid square `[0,100] × [0,100]`
(clamp formula), used to state how far a player is from the wall shape. -/
def distSqToSq100 (px py : ℝ) : ℝ :=
  (px - max 0 (min 100 px)) ^ 2 + (py - max 0 (min 100 py)) ^ 2

end

/-- A baseline matchmaking player as created by the join handler
(src/server.js:1078-1089), used as a template for concrete instances. -/
def demoMP : MPlayer :=
  { id := 1, x := 0, y := 0, radius := 28, hp := 200, maxHp := 200, xp := 0,
    nextLevelXp := 100, level := 1, gold := 0, invulnerableUntil := 0,
    cd1 := 0, cd2 := 0, cd3 := 0, cd4 := 0, buffs := [], damageMul := 1,
    buffDurationMul := 1, stunnedUntil := 0, kills := 0 }

/-- A baseline single-world player (src/unnamed/part_001:262-281). -/
def demoSP : SPlayer :=
  { id := 1, x := 0, y := 0, radius := 28, hp := 200, maxHp := 200, gold := 0,
    xp := 0, invulnerableUntil := 0, stunnedUntil := 0 }

/-- A goblin definition of the early part_002 variant
(src/unnamed/part_002:66). -/
def demoMobDef : MobDef :=
  { maxHp := 120, atk := 14, speed := 140, xp := 12, goldMin := 6, goldMax := 14,
    respawn := 12, radius := 22 }

/-- A freshly-killed goblin with one recorded contribution and no respawn
scheduled yet. -/
def demoMob : Mob :=
  { id := 1, x := 0, y := 0, hp := 0, maxHp := 120, radius := 22,
    damageContrib := [(1, 120)], mdef := demoMobDef, respawnAt := none,
    dead := false, stunnedUntil := 0 }

/-- A concrete matchmaking player sitting exactly at the level threshold with
dead hp, used to exercise the hp-or-maxHp fallback in `awardStep`. -/
def c5p : MPlayer :=
  { id := 1, x := 0, y := 0, radius := 28, hp := 0, maxHp := 200, xp := 100,
    nextLevelXp := 100, level := 1, gold := 0, invulnerableUntil := 0,
    cd1 := 0, cd2 := 0, cd3 := 0, cd4 := 0, buffs := [], damageMul := 1,
    buffDurationMul := 1, stunnedUntil := 0, kills := 0 }

/-- The state `c5p` reaches after one pass of the level-up loop body. -/
def c5q : MPlayer :=
  { c5p with hp := 250, maxHp := 250, xp := 0, nextLevelXp := 130, level := 2 }

/-- Player 3 of the C4 tie scenario. -/
def c4p3 : MPlayer := { demoMP with id := 3 }

/-- Player 5 of the C4 tie scenario. -/
def c4p5 : MPlayer := { demoMP with id := 5 }

/-- A dying mob whose ledger records, in insertion (first-seen) order, 50
cumulative damage by player 5 and then 50 by player 3. -/
def c4mob : Mob := { demoMob with damageContrib := [(5, 50), (3, 50)] }

/-- Player 3 after being credited the mob's gold (6) and xp (12). -/
def c4p3x : MPlayer := { demoMP with id := 3, gold := 6, xp := 12 }

/-- The mob of the C4 scenario after death handling: respawn scheduled at
1000 + 12·1000, ledger cleared. -/
def c4dead : Mob :=
  { c4mob with respawnAt := some 13000, hp := 0, dead := true, damageContrib := [] }

/-- A live goblin used as a resolvable cast target. -/
def c1mob : Mob := { demoMob with hp := 120 }

/-- A plain arrow projectile with an absolute TTL of 5000. -/
def c6proj : Projectile :=
  { pid := 1, x := 0, y := 0, vx := 0, vy := 0, radius := 6, ownerId := 1,
    damage := 10, ttl := 5000, stunMs := 0 }

/-- A second single-world player standing on the owner's position. -/
def c7p2 : SPlayer := { demoSP with id := 2 }

/-- An exploding projectile owned by player 1, sitting at the shared
position. -/
def c7proj : ProjectileX :=
  { pid := 1, x := 0, y := 0, vx := 0, vy := 0, radius := 6, ownerId := 1,
    damage := 70, ttl := 5000, stunMs := 0, kind := .explodeK, explodeRadius := 80 }

/-- The same projectile as a plain (non-exploding) target arrow. -/
def c7proj2 : ProjectileX := { c7proj with kind := .targetK, explodeRadius := 0 }

theorem stripNlRuns_no_nl (l : List Char) : ∀ c ∈ stripNlRuns l, c ≠ '\r' ∧ c ≠ '\n' := by
  induction l using stripNlRuns.induct with
  | case1 => intro c hc; simp [stripNlRuns] at hc
  | case2 c rest hnl ih =>
    intro d hd
    rw [stripNlRuns, if_pos hnl] at hd
    rcases List.mem_cons.mp hd with h | h
    · subst h; constructor <;> decide
    · exact ih d h
  | case3 c rest hnl ih =>
    intro d hd
    rw [stripNlRuns, if_neg hnl] at hd
    rcases List.mem_cons.mp hd with h | h
    · subst h
      simp only [Bool.or_eq_true, beq_iff_eq] at hnl
      push_neg at hnl
      exact hnl
    · exact ih d h

theorem sanitizeChat_spec (x : List Char) :
    (sanitizeChat x).length ≤ 240 ∧ ∀ c ∈ sanitizeChat x, c ≠ '\r' ∧ c ≠ '\n' := by
  constructor
  · simpa [sanitizeChat] using List.length_take_le 240 (stripNlRuns x)
  · intro c hc
    exact stripNlRuns_no_nl x c (List.mem_of_mem_take hc)

/-- C9: from a rate-limit state with no timestamps in the current window, two
chat messages inside one rolling 1000 ms window are broadcast (newline runs
replaced, text cut to 240 characters) and a third inside the same window is
blocked with a `chat_blocked` notice instead of being broadcast. -/
theorem c9_chat_rate_limit (init : List ℚ) (t1 t2 t3 : ℚ) (x1 x2 x3 : List Char)
    (h12 : t1 ≤ t2) (h23 : t2 ≤ t3) (hwin : t3 < t1 + 1000)
    (hold : ∀ ts ∈ init, ts ≤ t1 - 1000) :
    (chatStep t1 x1 init).2 = .sent (sanitizeChat x1) ∧
    (chatStep t2 x2 (chatStep t1 x1 init).1).2 = .sent (sanitizeChat x2) ∧
    (chatStep t3 x3 (chatStep t2 x2 (chatStep t1 x1 init).1).1).2 = .blocked ∧
    (sanitizeChat x1).length ≤ 240 ∧ (∀ c ∈ sanitizeChat x1, c ≠ '\r' ∧ c ≠ '\n') := by
  have hfilt : init.filter (fun ts => decide (t1 - ts < 1000)) = [] := by
    apply List.filter_eq_nil.mpr
    intro ts hts
    simp only [decide_eq_true_eq, not_lt]
    have := hold ts hts
    linarith
  have h1 : chatStep t1 x1 init = ([t1], .sent (sanitizeChat x1)) := by
    unfold chatStep
    rw [hfilt]
    norm_num
  have h2 : chatStep t2 x2 [t1] = ([t1, t2], .sent (sanitizeChat x2)) := by
    unfold chatStep
    have : (t2 - t1 < 1000) := by linarith
    simp [this]
  have h3 : (chatStep t3 x3 [t1, t2]).2 = .blocked := by
    unfold chatStep
    have a1 : (t3 - t1 < 1000) := by linarith
    have a2 : (t3 - t2 < 1000) := by linarith
    simp [a1, a2]
  refine ⟨by rw [h1], by rw [h1, h2], by rw [h1, h2, h3], (sanitizeChat_spec x1).1,
    (sanitizeChat_spec x1).2⟩

/-- Closed witness for the chat rate-limit theorem at concrete times. -/
theorem c9_chat_rate_limit_witness :
    (0 : ℚ) ≤ 100 ∧ (100 : ℚ) ≤ 900 ∧ (900 : ℚ) < 0 + 1000 ∧
    (chatStep 900 [' '] (chatStep 100 [' '] (chatStep 0 [' '] ([] : List ℚ)).1).1).2 = .blocked := by
  have h := c9_chat_rate_limit [] 0 100 900 [' '] [' '] [' ']
    (by norm_num) (by norm_num) (by norm_num) (by intro ts hts; simp at hts)
  exact ⟨by norm_num, by norm_num, by norm_num, h.2.2.1⟩

/-- C10: the passive-healing sweep leaves a dead player (hp ≤ 0) completely
unchanged and emits nothing for them — healing never resurrects; a live
player is healed by `max(1, ⌈maxHp/10⌉)` capped at maxHp, so hp stays in
`(0, maxHp]`, and a `player_healed` event is emitted only when hp actually
increased. -/
theorem c10_passive_healing (p : SPlayer) (hmax : 0 < p.maxHp) :
    (p.hp ≤ 0 → healStep p = (p, none)) ∧
    (0 < p.hp →
      (healStep p).1.hp = min p.maxHp (p.hp + max 1 ((⌈p.maxHp * (0.10 : ℚ)⌉ : ℤ) : ℚ)) ∧
      0 < (healStep p).1.hp ∧
      (healStep p).1.hp ≤ p.maxHp ∧
      (healStep p).1 = { p with hp := (healStep p).1.hp } ∧
      ((healStep p).2 ≠ none → p.hp < (healStep p).1.hp)) := by
  constructor
  · intro hdead
    unfold healStep
    rw [if_pos hdead]
  · intro halive
    have hne : ¬ p.hp ≤ 0 := not_le.mpr halive
    have hm : jsOrQ p.maxHp 200 = p.maxHp := by
      unfold jsOrQ
      rw [if_neg (ne_of_gt hmax)]
    set amt : ℚ := max 1 ((⌈p.maxHp * (0.10 : ℚ)⌉ : ℤ) : ℚ) with hamt
    set hp' : ℚ := min p.maxHp (p.hp + amt) with hhp'
    have hstep : healStep p =
        ({ p with hp := hp' },
          if 0 < jsRound (hp' - p.hp) then
            some (.playerHealed p.id (jsRound hp') (jsRound (hp' - p.hp))) else none) := by
      unfold healStep
      rw [if_neg hne]
      simp only [hm, hamt, hhp']
    have hamt1 : (1 : ℚ) ≤ amt := le_max_left _ _
    have hpos : 0 < hp' := lt_min hmax (by linarith)
    refine ⟨by rw [hstep], by rw [hstep]; exact hpos, by rw [hstep]; exact min_le_left _ _,
      by rw [hstep], ?_⟩
    intro hev
    rw [hstep] at hev ⊢
    by_cases hc : 0 < jsRound (hp' - p.hp)
    · have h1 : (1 : ℤ) ≤ ⌊hp' - p.hp + 1 / 2⌋ := hc
      have h2 : ((1 : ℤ) : ℚ) ≤ hp' - p.hp + 1 / 2 := Int.le_floor.mp h1
      push_cast at h2
      simpa using by linarith
    · simp only [if_neg hc] at hev
      exact absurd rfl hev

/-- Closed witness for the passive-healing theorem: a live player at 180/200
hp is healed along the claimed formula. -/
theorem c10_passive_healing_witness :
    (0 : ℚ) < 200 ∧ (0 : ℚ) < 180 ∧
    (healStep ⟨7, 0, 0, 28, 180, 200, 0, 0, 0, 0⟩).1.hp =
      min 200 (180 + max 1 ((⌈(200 : ℚ) * (0.10 : ℚ)⌉ : ℤ) : ℚ)) := by
  have h := c10_passive_healing ⟨7, 0, 0, 28, 180, 200, 0, 0, 0, 0⟩ (by norm_num)
  exact ⟨by norm_num, by norm_num, (h.2 (by norm_num)).1⟩

/-- C2 counterexample: in the matchmaking variant's `handlePlayerDeath`
(the `MatchInstance` one the claim cites), a victim holding 100 gold killed by
an identifiable player leaves BOTH golds unchanged (100 and 7) while the claim
demands a transfer of `⌊100 · 5%⌋ = 5` (victim 95, killer 12); the kill
counter and the hp pin do happen.  So no single `handlePlayerDeath` in the
repository performs all three actions the claim conjoins. -/
theorem c2_counterexample :
    ((handlePlayerDeathMM [{ demoMP with gold := 100 }, { demoMP with id := 2, gold := 7, kills := 3 }]
        1 (some 2)).1.map fun q => (q.gold, q.kills, q.hp)) = [(100, 0, 0), (7, 4, 200)] ∧
    ⌊(100 : ℚ) * (0.05 : ℚ)⌋ = 5 ∧
    ((100 : ℚ), (7 : ℚ)) ≠ ((100 - 5 : ℚ), (7 + 5 : ℚ)) := by
  refine ⟨?_, by norm_num, by norm_num⟩
  norm_num [handlePlayerDeathMM, updatePlayerById, demoMP, List.find?]

/-- C2 amended: player-death bookkeeping is split across the two variants.
The matchmaking `handlePlayerDeath` increments the killer's kill counter,
broadcasts a leaderboard update and pins the victim's hp to 0 — with no gold
transfer; the single-world `handlePlayerDeath` transfers
`⌊victim.gold · 5%⌋` (when positive) from the victim (clamped at 0) to the
killer and pins the victim's hp to 0 — and has no kill counter to increment. -/
theorem c2_player_death_amended (v k : MPlayer) (v' k' : SPlayer)
    (hvk : v.id ≠ k.id) (hvk' : v'.id ≠ k'.id) :
    handlePlayerDeathMM [v, k] v.id (some k.id) =
      ([{ v with hp := 0 }, { k with kills := k.kills + 1 }], [.leaderboardUpdate]) ∧
    handlePlayerDeathSW [v', k'] v'.id (some k'.id) =
      (if 0 < ⌊(Int.cast v'.gold : ℚ) * (0.05 : ℚ)⌋ then
        [{ v' with gold := max 0 (v'.gold - ⌊(Int.cast v'.gold : ℚ) * (0.05 : ℚ)⌋), hp := 0 },
         { k' with gold := k'.gold + ⌊(Int.cast v'.gold : ℚ) * (0.05 : ℚ)⌋ }]
      else [{ v' with hp := 0 }, k']) := by
  constructor
  · simp [handlePlayerDeathMM, updatePlayerById, List.find?, hvk, Ne.symm hvk]
  · by_cases hs : 0 < ⌊(Int.cast v'.gold : ℚ) * (0.05 : ℚ)⌋
    · rw [if_pos hs]
      simp [handlePlayerDeathSW, List.find?, hvk', Ne.symm hvk', hs]
    · rw [if_neg hs]
      simp [handlePlayerDeathSW, List.find?, hvk', Ne.symm hvk', hs]

/-- Closed witness for the amended player-death theorem at concrete players. -/
theorem c2_player_death_amended_witness :
    (1 : ℕ) ≠ 2 ∧
    (handlePlayerDeathMM [{ demoMP with gold := 100 }, { demoMP with id := 2, gold := 7, kills := 3 }]
        1 (some 2)) =
      ([{ demoMP with gold := 100, hp := 0 }, { demoMP with id := 2, gold := 7, kills := 4 }],
        [.leaderboardUpdate]) := by
  have h := c2_player_death_amended { demoMP with gold := 100 }
    { demoMP with id := 2, gold := 7, kills := 3 }
    { demoSP with gold := 100 } { demoSP with id := 2, gold := 7 }
    (by norm_num [demoMP]) (by norm_num [demoSP])
  exact ⟨by norm_num, h.1⟩

theorem damageMob_dead (now u : ℚ) (mob : Mob) (amt : ℚ) (pid : Option ℕ)
    (ps : List MPlayer) (h : mob.hp ≤ 0) : damageMob now u mob amt pid ps = (mob, ps, []) := by
  unfold damageMob
  rw [if_pos h]

theorem handleMobDeath_isSome (now u : ℚ) (mob : Mob) (kid : Option ℕ) (ps : List MPlayer) :
    ((handleMobDeath now u mob kid ps).1.respawnAt).isSome := by
  unfold handleMobDeath
  by_cases h : mob.respawnAt.isSome
  · rw [if_pos h]
    exact h
  · rw [if_neg h]
    dsimp only
    split <;> (try split) <;> rfl

theorem handleMobDeath_guard (now u : ℚ) (mob : Mob) (kid : Option ℕ) (ps : List MPlayer)
    (h : mob.respawnAt.isSome) : handleMobDeath now u mob kid ps = (mob, ps, []) := by
  unfold handleMobDeath
  rw [if_pos h]

theorem handleMobDeath_hp (now u : ℚ) (mob : Mob) (kid : Option ℕ) (ps : List MPlayer)
    (h : mob.hp ≤ 0) : (handleMobDeath now u mob kid ps).1.hp ≤ 0 := by
  unfold handleMobDeath
  by_cases hg : mob.respawnAt.isSome
  · rw [if_pos hg]
    exact h
  · rw [if_neg hg]
    dsimp only
    split <;> (try split) <;> simp

/-- C3 amended: in the guarded variant the claim cites in src/server.js
(`MatchInstance.damageMob` / `handleMobDeath`), mob-death handling is
idempotent exactly as claimed — `damageMob` is a no-op on a mob with hp ≤ 0,
a second `handleMobDeath` call is a no-op because `respawnAt` is already set
after the first, and of two racing lethal damage calls only the first has any
effect; but in the early part_002 variant the claim also cites,
`handleMobDeath` has NO `respawnAt` guard, so a second direct call re-executes
(see the counterexample) — only the guarded variants satisfy the claim's
parenthetical. -/
theorem c3_mob_death_idempotent_amended
    (now u now' u' : ℚ) (mob : Mob) (amt amt' : ℚ) (pid pid' kid kid' : Option ℕ)
    (ps ps' ps2 : List MPlayer) :
    (mob.hp ≤ 0 → damageMob now u mob amt pid ps = (mob, ps, [])) ∧
    (handleMobDeath now' u' (handleMobDeath now u mob kid ps).1 kid' ps' =
      ((handleMobDeath now u mob kid ps).1, ps', [])) ∧
    (0 < mob.hp → mob.hp ≤ amt →
      (damageMob now u mob amt pid ps).1.hp ≤ 0 ∧
      damageMob now' u' (damageMob now u mob amt pid ps).1 amt' pid' ps2 =
        ((damageMob now u mob amt pid ps).1, ps2, [])) := by
  refine ⟨?_, ?_, ?_⟩
  · exact damageMob_dead now u mob amt pid ps
  · exact handleMobDeath_guard _ _ _ _ _ (handleMobDeath_isSome now u mob kid ps)
  · intro h1 h2
    have hlethal : mob.hp - amt ≤ 0 := by linarith
    have hdead : (damageMob now u mob amt pid ps).1.hp ≤ 0 := by
      unfold damageMob
      rw [if_neg (not_le.mpr h1)]
      dsimp only
      rw [if_pos hlethal]
      by_cases hg : mob.respawnAt.isSome
      · rw [if_pos hg]
        exact hlethal
      · rw [if_neg hg]
        exact handleMobDeath_hp _ _ _ _ _ hlethal
    exact ⟨hdead, damageMob_dead now' u' _ amt' pid' ps2 hdead⟩

/-- C3 counterexample: in the early part_002 variant the claim cites
(`handleMobDeath`, src/unnamed/part_002:173-192, no `respawnAt` guard),
calling mob-death handling twice in succession is NOT a no-op the second
time: the second call re-schedules the respawn (13000 → 14000) and
re-broadcasts `mob_died`, contradicting "the second call is a no-op because
respawnAt is already set" / "schedules the respawn exactly once". -/
theorem c3_counterexample :
    (handleMobDeathV0 1000 0 demoMob []).1.respawnAt = some 13000 ∧
    (handleMobDeathV0 2000 0 (handleMobDeathV0 1000 0 demoMob []).1 []).1.respawnAt = some 14000 ∧
    (handleMobDeathV0 2000 0 (handleMobDeathV0 1000 0 demoMob []).1 []).2.2 =
      [GEvent.mobDied 1 none 0 0] ∧
    some (14000 : ℚ) ≠ some (13000 : ℚ) := by
  have h1 : handleMobDeathV0 1000 0 demoMob [] =
      ({ demoMob with respawnAt := some 13000, hp := 0, damageContrib := [] }, [],
        [GEvent.mobDied 1 none 0 0]) := by
    norm_num [handleMobDeathV0, demoMob, demoMobDef, topContrib, ledgerForInOrder,
      List.insertionSort, List.orderedInsert, jsRound, List.find?]
  rw [h1]
  have h2 : handleMobDeathV0 2000 0 ({ demoMob with respawnAt := some 13000, hp := 0, damageContrib := [] } : Mob) [] =
      ({ demoMob with respawnAt := some 14000, hp := 0, damageContrib := [] }, [],
        [GEvent.mobDied 1 none 0 0]) := by
    norm_num [handleMobDeathV0, demoMob, demoMobDef, topContrib, ledgerForInOrder,
      List.insertionSort, List.orderedInsert, jsRound, List.find?]
  rw [h2]
  norm_num [h1]

/-- Closed witness for the amended idempotence theorem: a lethal hit on a
full-health goblin leaves it at hp ≤ 0 and a second damage call is a no-op. -/
theorem c3_witness :
    ((0:ℚ) ≤ 0) ∧ (0 : ℚ) < 120 ∧ (120 : ℚ) ≤ 200 ∧
    (damageMob 7 0 { demoMob with hp := 120, damageContrib := [] } 200 (some 1) []).1.hp ≤ 0 ∧
    damageMob 8 0 (damageMob 7 0 { demoMob with hp := 120, damageContrib := [] } 200 (some 1) []).1
        50 (some 2) [] =
      ((damageMob 7 0 { demoMob with hp := 120, damageContrib := [] } 200 (some 1) []).1, [], []) := by
  have h := c3_mob_death_idempotent_amended 7 0 8 0
    ({ demoMob with hp := 120, damageContrib := [] }) 200 50 (some 1) (some 2) none none [] [] []
  have hc := h.2.2 (by norm_num [demoMob]) (by norm_num [demoMob])
  exact ⟨le_refl 0, by norm_num, by norm_num, hc.1, hc.2⟩

theorem awardStep_matches (p : MPlayer) (hhp : 0 < p.hp) (hlev : 1 ≤ p.level)
    (hmax : 0 < p.maxHp) (hdm : p.damageMul ≠ 0) (hbm : p.buffDurationMul ≠ 0) :
    toLevelState (awardStep p) = specStep (toLevelState p) ∧
    0 < (awardStep p).hp ∧ 1 ≤ (awardStep p).level ∧ 0 < (awardStep p).maxHp ∧
    (awardStep p).damageMul ≠ 0 ∧ (awardStep p).buffDurationMul ≠ 0 := by
  have hl : jsOrN p.level 1 = p.level := by
    unfold jsOrN
    rw [if_neg (by omega)]
  have hm : jsOrQ p.maxHp 200 = p.maxHp := by
    unfold jsOrQ
    rw [if_neg (ne_of_gt hmax)]
  have hh : ∀ b, jsOrQ p.hp b = p.hp := by
    intro b
    unfold jsOrQ
    rw [if_neg (ne_of_gt hhp)]
  have hd : jsOrQ p.damageMul 1 = p.damageMul := by
    unfold jsOrQ
    rw [if_neg hdm]
  have hb : jsOrQ p.buffDurationMul 1 = p.buffDurationMul := by
    unfold jsOrQ
    rw [if_neg hbm]
  unfold awardStep specStep toLevelState
  dsimp only
  rw [hl, hm, hh, hd, hb]
  refine ⟨rfl, lt_min (by linarith) (by linarith), by omega, by linarith, ?_, ?_⟩
  · split
    · exact mul_ne_zero hdm (by norm_num)
    · exact hdm
  · split
    · exact mul_ne_zero hbm (by norm_num)
    · exact hbm

theorem awardLoop_matches (p : MPlayer) :
    0 < p.hp → 1 ≤ p.level → 0 < p.maxHp → p.damageMul ≠ 0 → p.buffDurationMul ≠ 0 →
    toLevelState (awardLoop p).1 = specLevelLoop (toLevelState p) := by
  induction p using awardLoop.induct with
  | case1 x h ih =>
    intro hhp hlev hmax hdm hbm
    obtain ⟨hstep, h1, h2, h3, h4, h5⟩ := awardStep_matches x hhp hlev hmax hdm hbm
    rw [awardLoop, dif_pos h]
    rw [specLevelLoop, dif_pos (show 1 ≤ (toLevelState x).nextLevelXp ∧
      (toLevelState x).nextLevelXp ≤ (toLevelState x).xp from h)]
    dsimp only
    rw [ih h1 h2 h3 h4 h5, hstep]
  | case2 x h =>
    intro _ _ _ _ _
    rw [awardLoop, dif_neg h]
    rw [specLevelLoop, dif_neg (show ¬(1 ≤ (toLevelState x).nextLevelXp ∧
      (toLevelState x).nextLevelXp ≤ (toLevelState x).xp) from h)]

/-- C5 (amended): for a LIVE player (hp > 0, sane level/maxHp/multipliers,
nextLevelXp ≥ 1), `awardXpToPlayer` refines the spec's level-loop: add the
amount to xp, then while xp ≥ nextLevelXp subtract the threshold, bump the
level, raise maxHp by 50, heal 50 capped at the new maxHp, and set the next
threshold to ⌈oldReq · 1.3⌉, applying the ×1.3 damage and ×1.1 buff-duration
multipliers on levels divisible by 5.  The claim as stated is false for dead
players: `player.hp || player.maxHp` treats hp = 0 as absent, so a dead
player that levels is healed to the FULL new maxHp (see the
counterexample). -/
theorem c5_award_amended (p : MPlayer) (amount : ℕ)
    (hhp : 0 < p.hp) (hlev : 1 ≤ p.level) (hmax : 0 < p.maxHp)
    (hnext : 1 ≤ p.nextLevelXp) (hdm : p.damageMul ≠ 0) (hbm : p.buffDurationMul ≠ 0) :
    toLevelState (awardXpToPlayer p amount).1 = specAward (toLevelState p) amount := by
  unfold awardXpToPlayer specAward
  dsimp only
  have hn : jsOrN p.nextLevelXp 100 = p.nextLevelXp := by
    unfold jsOrN
    rw [if_neg (by omega)]
  rw [hn]
  have := awardLoop_matches { p with xp := p.xp + amount, nextLevelXp := p.nextLevelXp }
    hhp hlev hmax hdm hbm
  rw [this]
  rfl

theorem awardXpToPlayer_eval (p : MPlayer) (amount : ℕ) (q : MPlayer) (n : ℕ)
    (h : awardLoop { p with xp := p.xp + amount, nextLevelXp := jsOrN p.nextLevelXp 100 } = (q, n)) :
    awardXpToPlayer p amount =
      (q, if n ≠ 0 then [GEvent.playerLevelup q.level (50 * n)] else []) := by
  unfold awardXpToPlayer
  dsimp only
  rw [h]

theorem c5_counterexample :
    (awardXpToPlayer { demoMP with hp := 0 } 100).1.hp = 250 ∧
    (awardXpToPlayer { demoMP with hp := 0 } 100).1.maxHp = 250 ∧
    (250 : ℚ) ≠ min 250 (0 + 50) := by
  have hstep1 : awardStep c5p = c5q := by
    unfold awardStep
    dsimp only
    norm_num [jsOrN, jsOrQ, c5p, c5q]
    decide
  have e2 : awardLoop c5q = (c5q, 0) := by
    rw [awardLoop, dif_neg (by norm_num [c5q, c5p])]
  have e1 : awardLoop c5p = (c5q, 1) := by
    rw [awardLoop, dif_pos (by norm_num [c5p]), hstep1, e2]
  have harg : ({ ({ demoMP with hp := 0 } : MPlayer) with
      xp := ({ demoMP with hp := 0 } : MPlayer).xp + 100,
      nextLevelXp := jsOrN ({ demoMP with hp := 0 } : MPlayer).nextLevelXp 100 } : MPlayer) = c5p := by
    norm_num [demoMP, c5p, jsOrN]
  have e0 := awardXpToPlayer_eval { demoMP with hp := 0 } 100 c5q 1 (by rw [harg]; exact e1)
  rw [e0]
  norm_num [c5q, c5p]

theorem c5_award_amended_witness :
    toLevelState (awardXpToPlayer demoMP 250).1 = specAward (toLevelState demoMP) 250 :=
  c5_award_amended demoMP 250 (by norm_num [demoMP]) (by norm_num [demoMP])
    (by norm_num [demoMP]) (by norm_num [demoMP]) (by norm_num [demoMP]) (by norm_num [demoMP])

theorem topScan_fixed (l : List (ℕ × ℚ)) (tid : Option ℕ) (td : ℚ)
    (h : ∀ e ∈ l, e.2 ≤ td) :
    l.foldl (fun (acc : Option ℕ × ℚ) e => if e.2 > acc.2 then (some e.1, e.2) else acc)
      (tid, td) = (tid, td) := by
  induction l with
  | nil => rfl
  | cons a l ih =>
    have ha : ¬ (a.2 > td) := not_lt.mpr (h a (List.mem_cons_self a l))
    simp only [List.foldl_cons]
    dsimp only
    rw [if_neg ha]
    exact ih (fun e he => h e (List.mem_cons_of_mem a he))

theorem topScan_argmax (l : List (ℕ × ℚ)) :
    ∀ (tid : Option ℕ) (td d : ℚ) (t : ℕ),
      l.Pairwise (fun a b => a.1 ≤ b.1) → (t, d) ∈ l → td < d → (∀ e ∈ l, e.2 ≤ d) →
      ∃ t', l.foldl (fun (acc : Option ℕ × ℚ) e => if e.2 > acc.2 then (some e.1, e.2) else acc)
          (tid, td) = (some t', d) ∧ (t', d) ∈ l ∧ ∀ e ∈ l, e.2 = d → t' ≤ e.1 := by
  induction l with
  | nil => intro _ _ _ _ _ hmem; exact absurd hmem (List.not_mem_nil _)
  | cons a l ih =>
    intro tid td d t hsort hmem hlt hub
    rcases List.pairwise_cons.mp hsort with ⟨ha, hp⟩
    by_cases had : a.2 = d
    · refine ⟨a.1, ?_, ?_, ?_⟩
      · simp only [List.foldl_cons]
        dsimp only
        rw [if_pos (show td < a.2 by rw [had]; exact hlt)]
        have hrest := topScan_fixed l (some a.1) a.2
          (fun e he => by rw [had]; exact hub e (List.mem_cons_of_mem a he))
        rw [hrest, had]
      · have he : (a.1, d) = a := by rw [← had]
        rw [he]
        exact List.mem_cons_self a l
      · intro e he hed
        rcases List.mem_cons.mp he with rfl | hel
        · exact le_refl _
        · exact ha e hel
    · have hmem' : (t, d) ∈ l := by
        rcases List.mem_cons.mp hmem with heq | h
        · exact absurd (congrArg Prod.snd heq).symm had
        · exact h
      have hub' : ∀ e ∈ l, e.2 ≤ d := fun e he => hub e (List.mem_cons_of_mem a he)
      by_cases hup : a.2 > td
      · obtain ⟨t', h1, h2, h3⟩ := ih (some a.1) a.2 d t hp hmem'
          (lt_of_le_of_ne (hub a (List.mem_cons_self a l)) had) hub'
        refine ⟨t', ?_, List.mem_cons_of_mem a h2, ?_⟩
        · simp only [List.foldl_cons]
          dsimp only
          rw [if_pos hup]
          exact h1
        · intro e he hed
          rcases List.mem_cons.mp he with rfl | hel
          · exact absurd hed had
          · exact h3 e hel hed
      · obtain ⟨t', h1, h2, h3⟩ := ih tid td d t hp hmem' hlt hub'
        refine ⟨t', ?_, List.mem_cons_of_mem a h2, ?_⟩
        · simp only [List.foldl_cons]
          dsimp only
          rw [if_neg hup]
          exact h1
        · intro e he hed
          rcases List.mem_cons.mp he with rfl | hel
          · exact absurd hed had
          · exact h3 e hel hed

/-- C4 counterexample: the ledger ties are NOT broken by first-seen order,
and the fallback killer id does NOT win whenever it delivered the killing
blow.  Player 5 hits first (20), player 3 hits for 50, player 5 delivers the
killing 30: the ledger, in insertion (first-seen) order, is
`[(5, 50), (3, 50)]` — an exact tie with player 5 both first-seen and the
fallback killer.  `for..in` enumerates the canonical-integer-string keys in
ascending numeric order, so `handleMobDeath` scans player 3 first and the
strict `>` comparison keeps it: the gold (6) and xp (12) go to player 3, not
player 5 as the claim's tie-break rules demand. -/
theorem c4_counterexample :
    recordContrib (recordContrib (recordContrib [] 5 20) 3 50) 5 30 = [(5, 50), (3, 50)] ∧
    handleMobDeath 1000 0 c4mob (some 5) [c4p3, c4p5] =
      (c4dead, [c4p3x, c4p5], [GEvent.mobDied 1 (some 3) 6 12]) ∧
    c4p3x.id = 3 ∧ c4p3x.gold = 6 ∧ c4p3x.xp = 12 ∧ c4p5.id = 5 ∧ c4p5.gold = 0 := by
  have htop : topContrib (some 5) c4mob.damageContrib = some 3 := by
    show topContrib (some 5) [(5, (50 : ℚ)), (3, 50)] = some 3
    unfold topContrib ledgerForInOrder
    norm_num [List.insertionSort, List.orderedInsert, List.foldl_cons, List.foldl_nil]
  have hfind : [c4p3, c4p5].find? (fun q => q.id = 3) = some c4p3 := by
    simp [List.find?, c4p3, c4p5, demoMP]
  have hg : jsRound ((0 : ℚ) * (c4mob.mdef.goldMax - c4mob.mdef.goldMin) + c4mob.mdef.goldMin) = 6 := by
    norm_num [jsRound, c4mob, demoMob, demoMobDef]
  have hxp : awardXpToPlayer { c4p3 with gold := c4p3.gold + ((6 : ℤ) : ℚ) } c4mob.mdef.xp =
      (c4p3x, []) := by
    have ha := awardXpToPlayer_eval { c4p3 with gold := c4p3.gold + ((6 : ℤ) : ℚ) }
      c4mob.mdef.xp c4p3x 0 (by
        rw [show ({ ({ c4p3 with gold := c4p3.gold + ((6 : ℤ) : ℚ) } : MPlayer) with
            xp := ({ c4p3 with gold := c4p3.gold + ((6 : ℤ) : ℚ) } : MPlayer).xp + c4mob.mdef.xp,
            nextLevelXp := jsOrN ({ c4p3 with gold := c4p3.gold + ((6 : ℤ) : ℚ) } : MPlayer).nextLevelXp 100 } : MPlayer) =
            c4p3x
          from by norm_num [c4p3, c4p3x, c4mob, demoMob, demoMobDef, demoMP, jsOrN]]
        rw [awardLoop, dif_neg (by norm_num [c4p3x, demoMP])])
    rw [ha]
    norm_num
  have hmain : handleMobDeath 1000 0 c4mob (some 5) [c4p3, c4p5] =
      (c4dead, [c4p3x, c4p5], [GEvent.mobDied 1 (some 3) 6 12]) := by
    unfold handleMobDeath
    rw [if_neg (show ¬ c4mob.respawnAt.isSome = true by simp [c4mob, demoMob])]
    dsimp only
    rw [htop]
    dsimp only
    rw [hfind]
    dsimp only
    rw [hg, hxp]
    norm_num [updatePlayerById, c4dead, c4mob, c4p3, c4p5, c4p3x, demoMob, demoMobDef, demoMP, jsOrQ]
  exact ⟨by norm_num [recordContrib], hmain, rfl, rfl, rfl, rfl, rfl⟩

/-- C4 (amended): when a mob with no scheduled respawn dies, the ledger scan
falls back to the killing-blow id exactly when no recorded contribution is
positive; otherwise the credited id is a maximal contributor and, because
`for..in` enumerates the integer-string keys in ascending numeric order and
the comparison is strict, ties go to the SMALLEST player id among the maximal
contributors (not to the first-seen one).  Death handling schedules the
respawn at `now + (respawn || 10)·1000`, zeroes hp, marks the mob dead and
clears the ledger; when the credited id resolves to a roster player, that
player — and nobody else — receives the rounded gold draw and the type's xp,
and the gold draw lies in `[goldMin, goldMax]` for integer bounds and a
uniform draw `u ∈ [0, 1)`. -/
theorem c4_mob_death_amended (now u : ℚ) (mob : Mob) (kid : Option ℕ) (ps : List MPlayer)
    (hguard : mob.respawnAt = none) :
    ((∀ e ∈ mob.damageContrib, e.2 ≤ 0) → topContrib kid mob.damageContrib = kid) ∧
    (∀ d t, (t, d) ∈ mob.damageContrib → 0 < d → (∀ e ∈ mob.damageContrib, e.2 ≤ d) →
      ∃ t', topContrib kid mob.damageContrib = some t' ∧ (t', d) ∈ mob.damageContrib ∧
        ∀ e ∈ mob.damageContrib, e.2 = d → t' ≤ e.1) ∧
    ((handleMobDeath now u mob kid ps).1.respawnAt =
        some (now + jsOrQ mob.mdef.respawn 10 * 1000) ∧
      (handleMobDeath now u mob kid ps).1.hp = 0 ∧
      (handleMobDeath now u mob kid ps).1.dead = true ∧
      (handleMobDeath now u mob kid ps).1.damageContrib = []) ∧
    (∀ t killer, topContrib kid mob.damageContrib = some t →
      ps.find? (fun q => q.id = t) = some killer →
      handleMobDeath now u mob kid ps =
        ({ mob with
            respawnAt := some (now + jsOrQ mob.mdef.respawn 10 * 1000),
            hp := 0, dead := true, damageContrib := [] },
         updatePlayerById ps t (fun _ =>
           (awardXpToPlayer { killer with gold := killer.gold +
               ((jsRound (u * (mob.mdef.goldMax - mob.mdef.goldMin) + mob.mdef.goldMin) : ℤ) : ℚ) }
             mob.mdef.xp).1),
         (awardXpToPlayer { killer with gold := killer.gold +
             ((jsRound (u * (mob.mdef.goldMax - mob.mdef.goldMin) + mob.mdef.goldMin) : ℤ) : ℚ) }
           mob.mdef.xp).2 ++
           [GEvent.mobDied mob.id (some t)
             (jsRound (u * (mob.mdef.goldMax - mob.mdef.goldMin) + mob.mdef.goldMin)) mob.mdef.xp])) ∧
    (∀ gmin gmax : ℤ, 0 ≤ u → u < 1 → mob.mdef.goldMin = (gmin : ℚ) →
      mob.mdef.goldMax = (gmax : ℚ) → gmin ≤ gmax →
      gmin ≤ jsRound (u * (mob.mdef.goldMax - mob.mdef.goldMin) + mob.mdef.goldMin) ∧
      jsRound (u * (mob.mdef.goldMax - mob.mdef.goldMin) + mob.mdef.goldMin) ≤ gmax) := by
  have hdead : (handleMobDeath now u mob kid ps).1 =
      { mob with
        respawnAt := some (now + jsOrQ mob.mdef.respawn 10 * 1000),
        hp := 0, dead := true, damageContrib := [] } := by
    unfold handleMobDeath
    rw [if_neg (show ¬ mob.respawnAt.isSome = true by simp [hguard])]
    dsimp only
    cases hc : topContrib kid mob.damageContrib with
    | none => rfl
    | some t =>
      dsimp only
      cases hf : ps.find? (fun q => q.id = t) with
      | none => rfl
      | some killer => rfl
  refine ⟨?_, ?_, ⟨by rw [hdead], by rw [hdead], by rw [hdead], by rw [hdead]⟩, ?_, ?_⟩
  · intro h0
    unfold topContrib
    rw [topScan_fixed (ledgerForInOrder mob.damageContrib) kid 0 (fun e he =>
      h0 e ((List.perm_insertionSort (fun a b : ℕ × ℚ => a.1 ≤ b.1)
        mob.damageContrib).mem_iff.mp he))]
  · intro d t hmem hpos hub
    have hperm := List.perm_insertionSort (fun a b : ℕ × ℚ => a.1 ≤ b.1) mob.damageContrib
    haveI : IsTotal (ℕ × ℚ) (fun a b => a.1 ≤ b.1) := ⟨fun a b => Nat.le_total a.1 b.1⟩
    haveI : IsTrans (ℕ × ℚ) (fun a b => a.1 ≤ b.1) := ⟨fun _ _ _ h1 h2 => le_trans h1 h2⟩
    have hsort : (ledgerForInOrder mob.damageContrib).Pairwise (fun a b : ℕ × ℚ => a.1 ≤ b.1) :=
      List.sorted_insertionSort _ _
    obtain ⟨t', h1, h2, h3⟩ := topScan_argmax (ledgerForInOrder mob.damageContrib) kid 0 d t
      hsort (hperm.mem_iff.mpr hmem) hpos (fun e he => hub e (hperm.mem_iff.mp he))
    refine ⟨t', ?_, hperm.mem_iff.mp h2, ?_⟩
    · unfold topContrib
      rw [h1]
    · intro e he hed
      exact h3 e (hperm.mem_iff.mpr he) hed
  · intro t killer htop hfind
    unfold handleMobDeath
    rw [if_neg (show ¬ mob.respawnAt.isSome = true by simp [hguard])]
    dsimp only
    rw [htop]
    dsimp only
    rw [hfind]
  · intro gmin gmax hu0 hu1 hgmin hgmax hle
    rw [hgmin, hgmax]
    have hcast : (gmin : ℚ) ≤ (gmax : ℚ) := by exact_mod_cast hle
    have hxlo : (gmin : ℚ) ≤ u * ((gmax : ℚ) - (gmin : ℚ)) + (gmin : ℚ) := by nlinarith
    have hxhi : u * ((gmax : ℚ) - (gmin : ℚ)) + (gmin : ℚ) ≤ (gmax : ℚ) := by nlinarith
    unfold jsRound
    constructor
    · exact Int.le_floor.mpr (by push_cast; linarith)
    · have h2 : ⌊u * ((gmax : ℚ) - (gmin : ℚ)) + (gmin : ℚ) + 1 / 2⌋ < gmax + 1 :=
        Int.floor_lt.mpr (by push_cast; linarith)
      omega

theorem c4_mob_death_amended_witness :
    topContrib (some 1) [(1, (40 : ℚ)), (2, 60)] = some 2 ∧
    (handleMobDeath 1000 0 { demoMob with damageContrib := [(1, 40), (2, 60)] }
      (some 1) []).1.damageContrib = [] := by
  have h := c4_mob_death_amended 1000 0 { demoMob with damageContrib := [(1, 40), (2, 60)] }
    (some 1) [] rfl
  obtain ⟨t', h1, h2, h3⟩ := h.2.1 60 2
    (by
      show (2, (60 : ℚ)) ∈ [(1, (40 : ℚ)), (2, 60)]
      simp)
    (by norm_num)
    (by
      intro e he
      have he' : e ∈ [((1 : ℕ), (40 : ℚ)), (2, 60)] := he
      rcases List.mem_cons.mp he' with rfl | he2
      · norm_num
      · rcases List.mem_cons.mp he2 with rfl | he3
        · norm_num
        · exact absurd he3 (List.not_mem_nil _))
  have h2' : (t', (60 : ℚ)) ∈ [((1 : ℕ), (40 : ℚ)), (2, 60)] := h2
  have ht2 : t' = 2 := by
    rcases List.mem_cons.mp h2' with he | he
    · have := congrArg Prod.snd he
      norm_num at this
    · rcases List.mem_cons.mp he with he2 | he2
      · exact congrArg Prod.fst he2
      · exact absurd he2 (List.not_mem_nil _)
  have h1' : topContrib (some 1) [(1, (40 : ℚ)), (2, 60)] = some t' := h1
  rw [ht2] at h1'
  exact ⟨h1', h.2.2.1.2.2.2⟩

theorem getCd_setCd (p : MPlayer) (i : Fin 4) (v : ℚ) : getCd (setCd p i v) i = v := by
  fin_cases i <;> rfl

/-- C1 (amended): the cast handler checks the slot cooldown BEFORE the
alive check — a cooling cast is rejected `cooldown` with no state change even
when the caster is dead; a dead caster off cooldown is silently dropped; for a
live caster off cooldown the slot cooldown is written `now + cdMs` BEFORE any
target resolution, so `no_target` / `invalid_target` rejections also consume
the slot's cooldown (contradicting the claim's "only on a successful cast");
consequently a second same-slot cast inside the window is rejected `cooldown`,
and once the window elapses a live caster with a resolvable target key
succeeds (target liveness is NOT checked: `match.mobs.has` alone decides
resolvability, see the counterexample). -/
theorem c1_cast_amended (now now2 : ℚ) (msg : CastMsg) (p : MPlayer)
    (mobs mobs2 : List Mob) (players players2 : List MPlayer)
    (slot : ℤ) (idx : Fin 4) (cdMs : ℚ)
    (hslot : slot = max 1 (min 4 msg.slot)) (hidx : idx = slotFin slot)
    (hcdms : cdMs = jsOrQ (classCooldownsMs msg.cls idx) 6000) :
    (now < getCd p idx → castStep now msg p mobs players = (p, .rejected .cooldown slot)) ∧
    (getCd p idx ≤ now → p.hp ≤ 0 → castStep now msg p mobs players = (p, .dropped)) ∧
    (getCd p idx ≤ now → 0 < p.hp →
      (castStep now msg p mobs players).1 = setCd p idx (now + cdMs)) ∧
    (getCd p idx ≤ now → 0 < p.hp → now2 < now + cdMs →
      castStep now2 msg (castStep now msg p mobs players).1 mobs2 players2 =
        ((castStep now msg p mobs players).1, .rejected .cooldown slot)) ∧
    (∀ m, getCd p idx ≤ now → 0 < p.hp →
      msg.targetId = some (.mobKey m) → (skillDefs msg.cls idx).kind = .projTarget →
      (mobs.find? (fun mb => mb.id = m)).isSome = true →
      castStep now msg p mobs players =
        (setCd p idx (now + cdMs), .spawnedProjectile (.mobKey m) (skillDefs msg.cls idx))) := by
  subst hslot
  subst hidx
  subst hcdms
  have hc1 : ∀ (q : MPlayer) (n : ℚ) (ms : List Mob) (ps : List MPlayer),
      n < getCd q (slotFin (max 1 (min 4 msg.slot))) →
      castStep n msg q ms ps = (q, .rejected .cooldown (max 1 (min 4 msg.slot))) := by
    intro q n ms ps h
    unfold castStep
    dsimp only
    rw [if_pos h]
  have hc3 : ∀ (q : MPlayer) (n : ℚ) (ms : List Mob) (ps : List MPlayer),
      getCd q (slotFin (max 1 (min 4 msg.slot))) ≤ n → 0 < q.hp →
      (castStep n msg q ms ps).1 =
        setCd q (slotFin (max 1 (min 4 msg.slot)))
          (n + jsOrQ (classCooldownsMs msg.cls (slotFin (max 1 (min 4 msg.slot)))) 6000) := by
    intro q n ms ps h1 h2
    unfold castStep
    dsimp only
    rw [if_neg (not_lt.mpr h1), if_neg (not_le.mpr h2)]
    split
    all_goals first
      | rfl
      | (split <;> first
          | rfl
          | (split <;> rfl))
  refine ⟨hc1 p now mobs players, ?_, hc3 p now mobs players, ?_, ?_⟩
  · intro h1 h2
    unfold castStep
    dsimp only
    rw [if_neg (not_lt.mpr h1), if_pos h2]
  · intro h1 h2 h3
    rw [hc3 p now mobs players h1 h2]
    exact hc1 _ now2 mobs2 players2 (by rw [getCd_setCd]; exact h3)
  · intro m h1 h2 htarget hkind hres
    unfold castStep
    dsimp only
    rw [if_neg (not_lt.mpr h1), if_neg (not_le.mpr h2), hkind]
    dsimp only
    rw [htarget]
    dsimp only
    rw [if_pos hres]

/-- C1 counterexample, three violations of the claim as stated.  (A/B) A
ranger's slot-1 cast with no target is rejected `no_target` — yet the slot
cooldown has been consumed (`cd1` jumps from 0 to 2000), not left unchanged.
(C) A DEAD caster still cooling is rejected with reason `cooldown`: the
cooldown check runs before the alive check, so validation is not performed in
the claimed order (a) then (b).  (D) A dead mob (hp 0) resolves as a valid
target — `match.mobs.has(targetId)` never checks liveness — so the cast
succeeds where the claim requires an `invalid_target` rejection. -/
theorem c1_counterexample :
    (castStep 0 ⟨1, .ranger, none⟩ demoMP [] []).2 = .rejected .noTarget 1 ∧
    (castStep 0 ⟨1, .ranger, none⟩ demoMP [] []).1.cd1 = 2000 ∧
    demoMP.cd1 = 0 ∧
    (castStep 1000 ⟨1, .ranger, none⟩ { demoMP with hp := 0, cd1 := 5000 } [] []).2 =
      .rejected .cooldown 1 ∧
    ({ demoMP with hp := 0, cd1 := 5000 } : MPlayer).hp = 0 ∧
    (castStep 0 ⟨1, .ranger, some (.mobKey 1)⟩ demoMP [demoMob] []).2 =
      .spawnedProjectile (.mobKey 1) (skillDefs .ranger 0) ∧
    demoMob.hp ≤ 0 := by
  refine ⟨?_, ?_, rfl, ?_, rfl, ?_, by norm_num [demoMob]⟩
  · norm_num [castStep, slotFin, getCd, setCd, skillDefs, classCooldownsMs, jsOrQ, demoMP]
  · norm_num [castStep, slotFin, getCd, setCd, skillDefs, classCooldownsMs, jsOrQ, demoMP]
  · norm_num [castStep, slotFin, getCd, demoMP]
  · norm_num [castStep, slotFin, getCd, setCd, skillDefs, classCooldownsMs, jsOrQ, demoMP,
      demoMob, List.find?]

theorem c1_cast_amended_witness :
    castStep 0 ⟨1, .ranger, some (.mobKey 1)⟩ demoMP [c1mob] [] =
      (setCd demoMP 0 2000, .spawnedProjectile (.mobKey 1) (skillDefs .ranger 0)) ∧
    castStep 1000 ⟨1, .ranger, some (.mobKey 1)⟩
        (castStep 0 ⟨1, .ranger, some (.mobKey 1)⟩ demoMP [c1mob] []).1 [c1mob] [] =
      ((castStep 0 ⟨1, .ranger, some (.mobKey 1)⟩ demoMP [c1mob] []).1,
        .rejected .cooldown 1) := by
  have h := c1_cast_amended 0 1000 ⟨1, .ranger, some (.mobKey 1)⟩ demoMP [c1mob] [c1mob] [] []
    1 0 2000 (by norm_num) rfl (by norm_num [classCooldownsMs, jsOrQ])
  have h5 := h.2.2.2.2 1 (by norm_num [getCd, demoMP]) (by norm_num [demoMP]) rfl rfl
    (by simp [List.find?, c1mob, demoMob])
  have h4 := h.2.2.2.1 (by norm_num [getCd, demoMP]) (by norm_num [demoMP]) (by norm_num)
  exact ⟨by rw [h5]; norm_num, h4⟩

theorem projectileTick_classify (now dt half u : ℚ) (mobs : List Mob)
    (players : List MPlayer) (proj : Projectile) :
    ((projectileTick now dt half u mobs players proj).removed = some .ttlExpired ↔
      (proj.ttl ≠ 0 ∧ now ≥ proj.ttl)) ∧
    ((projectileTick now dt half u mobs players proj).removed = some .ttlExpired →
      (projectileTick now dt half u mobs players proj).calls = []) ∧
    ((projectileTick now dt half u mobs players proj).removed = some .hitRemoved →
      ¬ (proj.ttl ≠ 0 ∧ now ≥ proj.ttl) ∧
        ∃ c, (projectileTick now dt half u mobs players proj).calls = [c]) ∧
    ((projectileTick now dt half u mobs players proj).removed = none →
      (projectileTick now dt half u mobs players proj).calls = []) ∧
    (projectileTick now dt half u mobs players proj).proj.ttl = proj.ttl := by
  unfold projectileTick
  dsimp only
  split
  · refine ⟨by simp_all, fun _ => rfl, by simp_all, by simp_all, rfl⟩
  · split
    · exact ⟨by simp_all, by simp_all, fun _ => ⟨‹_›, _, rfl⟩, by simp_all, rfl⟩
    · split
      · exact ⟨by simp_all, by simp_all, fun _ => ⟨‹_›, _, rfl⟩, by simp_all, rfl⟩
      · exact ⟨by simp_all, by simp_all, by simp_all, fun _ => rfl, rfl⟩

theorem projectileTick_player_call (now dt half u : ℚ) (mobs : List Mob)
    (players : List MPlayer) (proj : Projectile) :
    ∀ qid d, (projectileTick now dt half u mobs players proj).calls = [⟨.playerT qid, d⟩] →
      qid ≠ proj.ownerId := by
  intro qid d h
  unfold projectileTick at h
  dsimp only at h
  split at h
  · simp at h
  · split at h
    · simp at h
    · rename_i heq
      split at h
      · rename_i q hq
        simp only [List.cons.injEq, DmgCall.mk.injEq, DmgTarget.playerT.injEq] at h
        obtain ⟨⟨hid, _⟩, _⟩ := h
        have hpred := List.find?_some hq
        simp only [Bool.and_eq_true, decide_eq_true_eq] at hpred
        rw [← hid]
        exact hpred.1.1
      · simp at h

theorem projRun_spec (dt half : ℚ) :
    ∀ (envs : List TickEnv) (k : ℕ) (p : Projectile) (i : ℕ) (reason : ProjReason)
      (calls : List DmgCall),
      p.ttl ≠ 0 →
      projRun dt half k envs p = .removedAt i reason calls →
      k ≤ i ∧
      (∃ e, envs.get? (i - k) = some e ∧
        (reason = .ttlExpired → e.now ≥ p.ttl ∧ calls = []) ∧
        (reason = .hitRemoved → e.now < p.ttl ∧ ∃ c, calls = [c])) ∧
      (∀ j e, j < i - k → envs.get? j = some e → e.now < p.ttl) := by
  intro envs
  induction envs with
  | nil =>
    intro k p i reason calls _ h
    exact absurd h (by unfold projRun; simp)
  | cons e rest ih =>
    intro k p i reason calls httl h
    unfold projRun at h
    dsimp only at h
    obtain ⟨hiff, hexp, hhit, _, httlinv⟩ :=
      projectileTick_classify e.now dt half e.u e.mobs e.players p
    split at h
    · rename_i reason0 hrem
      injection h with h1 h2 h3
      subst h1
      subst h2
      subst h3
      refine ⟨le_refl _, ⟨e, by simp, ?_, ?_⟩, ?_⟩
      · intro hr
        rw [hr] at hrem
        obtain ⟨_, hnow⟩ := hiff.mp hrem
        exact ⟨hnow, hexp hrem⟩
      · intro hr
        rw [hr] at hrem
        obtain ⟨hnexp, hc⟩ := hhit hrem
        refine ⟨?_, hc⟩
        by_contra hge
        exact hnexp ⟨httl, not_lt.mp hge⟩
      · intro j e2 hj
        exact absurd hj (by omega)
    · rename_i hrem
      have httl2 : (projectileTick e.now dt half e.u e.mobs e.players p).proj.ttl ≠ 0 := by
        rw [httlinv]; exact httl
      obtain ⟨hk, ⟨e2, he2, hr1, hr2⟩, hall⟩ :=
        ih (k + 1) (projectileTick e.now dt half e.u e.mobs e.players p).proj i reason calls
          httl2 h
      rw [httlinv] at hr1 hr2 hall
      have hstep : e.now < p.ttl := by
        by_contra hge
        have : (projectileTick e.now dt half e.u e.mobs e.players p).removed =
            some .ttlExpired := hiff.mpr ⟨httl, not_lt.mp hge⟩
        rw [hrem] at this
        exact Option.noConfusion this
      refine ⟨by omega, ⟨e2, ?_, hr1, hr2⟩, ?_⟩
      · have : i - k = (i - (k + 1)) + 1 := by omega
        rw [this]
        simpa using he2
      · intro j e3 hj hget
        cases j with
        | zero =>
          simp at hget
          rw [← hget]
          exact hstep
        | succ j =>
          have : j < i - (k + 1) := by omega
          exact hall j e3 this (by simpa using hget)

/-- C6: per tick, a projectile whose (nonzero, absolute) TTL has arrived is
removed as expired before it can damage anything; a hit removes it the same
tick with EXACTLY ONE damage call, and only while its TTL has not arrived; a
projectile that neither expires nor hits survives the tick with no damage
call; and over a run of ticks every removal happens for exactly one of the
two reasons — expiry exactly at the first tick whose time reaches the TTL
(never before, never after, with no damage call), or a hit strictly before
the TTL with exactly one damage call. -/
theorem c6_projectile_single_hit_ttl (now dt half u : ℚ) (mobs : List Mob)
    (players : List MPlayer) (proj : Projectile) (httl : proj.ttl ≠ 0) :
    ((projectileTick now dt half u mobs players proj).removed = some .ttlExpired ↔
      now ≥ proj.ttl) ∧
    ((projectileTick now dt half u mobs players proj).removed = some .ttlExpired →
      (projectileTick now dt half u mobs players proj).calls = []) ∧
    ((projectileTick now dt half u mobs players proj).removed = some .hitRemoved →
      now < proj.ttl ∧ ∃ c, (projectileTick now dt half u mobs players proj).calls = [c]) ∧
    ((projectileTick now dt half u mobs players proj).removed = none →
      (projectileTick now dt half u mobs players proj).calls = []) ∧
    (∀ envs i calls, projRun dt half 0 envs proj = .removedAt i .ttlExpired calls →
      calls = [] ∧ (∃ e, envs.get? i = some e ∧ e.now ≥ proj.ttl) ∧
      ∀ j e, j < i → envs.get? j = some e → e.now < proj.ttl) ∧
    (∀ envs i calls, projRun dt half 0 envs proj = .removedAt i .hitRemoved calls →
      (∃ c, calls = [c]) ∧ ∃ e, envs.get? i = some e ∧ e.now < proj.ttl) := by
  obtain ⟨hiff, hexp, hhit, hnone, _⟩ := projectileTick_classify now dt half u mobs players proj
  refine ⟨?_, hexp, ?_, hnone, ?_, ?_⟩
  · constructor
    · intro h
      exact (hiff.mp h).2
    · intro h
      exact hiff.mpr ⟨httl, h⟩
  · intro h
    obtain ⟨hn, hc⟩ := hhit h
    refine ⟨?_, hc⟩
    by_contra hge
    exact hn ⟨httl, not_lt.mp hge⟩
  · intro envs i calls hrun
    obtain ⟨_, ⟨e, hget, h1, _⟩, hall⟩ :=
      projRun_spec dt half envs 0 proj i .ttlExpired calls httl hrun
    obtain ⟨hnow, hcalls⟩ := h1 rfl
    exact ⟨hcalls, ⟨e, by simpa using hget, hnow⟩,
      fun j e2 hj hg => hall j e2 (by omega) hg⟩
  · intro envs i calls hrun
    obtain ⟨_, ⟨e, hget, _, h2⟩, _⟩ :=
      projRun_spec dt half envs 0 proj i .hitRemoved calls httl hrun
    obtain ⟨hnow, hc⟩ := h2 rfl
    exact ⟨hc, e, by simpa using hget, hnow⟩

theorem c6_projectile_single_hit_ttl_witness :
    c6proj.ttl ≠ 0 ∧
    (projectileTick 6000 (1 / 20) 9000 0 [] [] c6proj).removed = some .ttlExpired ∧
    (projectileTick 6000 (1 / 20) 9000 0 [] [] c6proj).calls = [] := by
  have h := c6_projectile_single_hit_ttl 6000 (1 / 20) 9000 0 [] [] c6proj
    (by norm_num [c6proj])
  have hrem := h.1.mpr (by norm_num [c6proj])
  exact ⟨by norm_num [c6proj], hrem, h.2.1 hrem⟩

theorem foldl_calls_mobT
    (step : (List Mob × List SPlayer × List GEvent × List DmgCall) → ℕ →
      (List Mob × List SPlayer × List GEvent × List DmgCall))
    (hstep : ∀ acc mid, (step acc mid).2.2.2 = acc.2.2.2 ∨
      ∃ d, (step acc mid).2.2.2 = acc.2.2.2 ++ [⟨.mobT mid, d⟩]) :
    ∀ (l : List ℕ) acc, (∀ c ∈ acc.2.2.2, ∃ mid, c.target = .mobT mid) →
      ∀ c ∈ (l.foldl step acc).2.2.2, ∃ mid, c.target = .mobT mid := by
  intro l
  induction l with
  | nil =>
    intro acc hacc c hc
    exact hacc c hc
  | cons a l ih =>
    intro acc hacc c hc
    rw [List.foldl_cons] at hc
    refine ih (step acc a) ?_ c hc
    intro c2 hc2
    rcases hstep acc a with he | ⟨d, he⟩
    · rw [he] at hc2
      exact hacc c2 hc2
    · rw [he] at hc2
      rcases List.mem_append.mp hc2 with h1 | h1
      · exact hacc c2 h1
      · rw [List.mem_singleton.mp h1]
        exact ⟨a, rfl⟩

theorem explodeMobs_calls (now u px py er dmg : ℚ) (ownerId : ℕ)
    (mobs : List Mob) (players : List SPlayer) :
    ∀ c ∈ (explodeMobs now u px py er dmg ownerId mobs players).2.2.2,
      ∃ mid, c.target = .mobT mid := by
  unfold explodeMobs
  refine foldl_calls_mobT _ ?_ _ _ ?_
  · intro acc mid
    dsimp only
    split
    · exact Or.inl rfl
    · split
      · exact Or.inr ⟨dmg, rfl⟩
      · exact Or.inl rfl
  · intro c hc
    exact absurd hc (List.not_mem_nil c)

theorem projectileTickX_player_call (now dt half u : ℚ) (mobs : List Mob)
    (players : List SPlayer) (proj : ProjectileX) :
    ∀ qid d,
      (⟨.playerT qid, d⟩ : DmgCall) ∈ (projectileTickX now dt half u mobs players proj).calls →
      qid ≠ proj.ownerId ∨ (proj.kind = .explodeK ∧ 0 < proj.explodeRadius) := by
  intro qid d h
  unfold projectileTickX at h
  dsimp only at h
  split at h
  · simp at h
  · split at h
    · dsimp only at h
      split at h
      · obtain ⟨mid, hmid⟩ := explodeMobs_calls _ _ _ _ _ _ _ _ _ _ h
        simp at hmid
      · simp at h
    · split at h
      · dsimp only at h
        split at h
        · rename_i hex
          right
          simp only [Bool.and_eq_true, decide_eq_true_eq] at hex
          exact ⟨hex.1.1, hex.2⟩
        · rename_i q hq hex
          left
          simp only [List.mem_singleton, DmgCall.mk.injEq, DmgTarget.playerT.injEq] at h
          have hpred := List.find?_some hq
          simp only [Bool.and_eq_true, decide_eq_true_eq] at hpred
          rw [h.1]
          exact hpred.1.1
      · simp at h

/-- C7 (amended): a projectile's DIRECT hits never damage its owner (the
matchmaking loop's single-hit call and the single-world loop's non-exploding
calls always target someone else), mob-impact explosions damage mobs only —
but the claim as stated is false for player-impact explosions: whenever the
owner takes damage from its own projectile, that projectile was a
`proj_explode` with positive explode radius detonated on a player impact (the
area sweep omits the owner exclusion), and the counterexample shows this case
actually occurs. -/
theorem c7_owner_hit_amended (now dt half u : ℚ) (mobs : List Mob)
    (players : List SPlayer) (proj : ProjectileX)
    (mmMobs : List Mob) (mmPlayers : List MPlayer) (mmProj : Projectile) :
    (∀ qid d, (projectileTick now dt half u mmMobs mmPlayers mmProj).calls = [⟨.playerT qid, d⟩] →
      qid ≠ mmProj.ownerId) ∧
    (¬ (proj.kind = .explodeK ∧ 0 < proj.explodeRadius) →
      ∀ qid d,
        (⟨.playerT qid, d⟩ : DmgCall) ∈ (projectileTickX now dt half u mobs players proj).calls →
        qid ≠ proj.ownerId) ∧
    (∀ d, (⟨.playerT proj.ownerId, d⟩ : DmgCall) ∈
        (projectileTickX now dt half u mobs players proj).calls →
      proj.kind = .explodeK ∧ 0 < proj.explodeRadius) := by
  refine ⟨fun qid d h => projectileTick_player_call now dt half u mmMobs mmPlayers mmProj qid d h,
    ?_, ?_⟩
  · intro hnot qid d h
    rcases projectileTickX_player_call now dt half u mobs players proj qid d h with h1 | h2
    · exact h1
    · exact absurd h2 hnot
  · intro d h
    rcases projectileTickX_player_call now dt half u mobs players proj proj.ownerId d h with h1 | h2
    · exact absurd rfl h1
    · exact h2

/-- C7 counterexample: an exploding projectile owned by player 1 detonates on
player 2 (both standing at the impact point); the explosion sweep has no owner
exclusion, so player 1 takes a damage call from its OWN projectile and both
players drop from 200 hp to 130. -/
theorem c7_counterexample :
    (⟨.playerT 1, 70⟩ : DmgCall) ∈
      (projectileTickX 1000 (1 / 20) 9000 0 [] [demoSP, c7p2] c7proj).calls ∧
    c7proj.ownerId = 1 ∧
    (projectileTickX 1000 (1 / 20) 9000 0 [] [demoSP, c7p2] c7proj).players.map
      (fun q => (q.id, q.hp)) = [(1, 130), (2, 130)] ∧
    demoSP.hp = 200 := by
  have hmain : projectileTickX 1000 (1 / 20) 9000 0 [] [demoSP, c7p2] c7proj =
      ⟨some .hitRemoved, c7proj, [],
        [{ demoSP with hp := 130 }, { c7p2 with hp := 130 }],
        [GEvent.playerHurt 1 (some 1), GEvent.playerHurt 2 (some 1)],
        [⟨.playerT 1, 70⟩, ⟨.playerT 2, 70⟩]⟩ := by
    norm_num [projectileTickX, explodePlayers, explodeMobs, applyDamageToPlayerSWL,
      demoSP, c7p2, c7proj, jsOrQ, distSq, List.find?, List.foldl_cons, List.foldl_nil,
      List.map_cons, List.map_nil]
  rw [hmain]
  refine ⟨by norm_num, rfl, ?_, rfl⟩
  norm_num [c7p2, demoSP]

theorem c7_owner_hit_amended_witness :
    (⟨.playerT 2, 70⟩ : DmgCall) ∈
      (projectileTickX 1000 (1 / 20) 9000 0 [] [demoSP, c7p2] c7proj2).calls ∧
    (2 : ℕ) ≠ c7proj2.ownerId := by
  have hmem : (⟨.playerT 2, 70⟩ : DmgCall) ∈
      (projectileTickX 1000 (1 / 20) 9000 0 [] [demoSP, c7p2] c7proj2).calls := by
    norm_num [projectileTickX, applyDamageToPlayerSWL, demoSP, c7p2, c7proj2, c7proj,
      jsOrQ, distSq, List.find?]
  have h := (c7_owner_hit_amended 1000 (1 / 20) 9000 0 [] [demoSP, c7p2] c7proj2
    [] [] c6proj).2.1 (by norm_num [c7proj2, c7proj]) 2 70 hmem
  exact ⟨hmem, h⟩

theorem div_norm_abs_le_one (c s : ℝ) (hc : c * c ≤ s) :
    |c / (if Real.sqrt s = 0 then 1 else Real.sqrt s)| ≤ 1 := by
  by_cases h : Real.sqrt s = 0
  · rw [if_pos h]
    have hs0 : s ≤ 0 := Real.sqrt_eq_zero'.mp h
    have hc0 : c = 0 := by nlinarith [mul_self_nonneg c]
    simp [hc0]
  · rw [if_neg h]
    have hpos : 0 < Real.sqrt s := lt_of_le_of_ne (Real.sqrt_nonneg s) (Ne.symm h)
    have hle : |c| ≤ Real.sqrt s := by
      rw [← Real.sqrt_mul_self_eq_abs c]
      exact Real.sqrt_le_sqrt hc
    rw [abs_div, abs_of_pos hpos]
    exact (div_le_one hpos).mpr hle

theorem edgeNormal_abs_le_one (vx vy : ℝ) (i : Bool) :
    |(edgeNormal vx vy i).1| ≤ 1 ∧ |(edgeNormal vx vy i).2| ≤ 1 := by
  unfold edgeNormal
  dsimp only
  constructor
  · split
    · rw [abs_neg]
      exact div_norm_abs_le_one _ _ (by nlinarith [mul_self_nonneg vx])
    · exact div_norm_abs_le_one _ _ (by nlinarith [mul_self_nonneg vx])
  · split
    · rw [abs_neg]
      exact div_norm_abs_le_one _ _ (by nlinarith [mul_self_nonneg vy])
    · exact div_norm_abs_le_one _ _ (by nlinarith [mul_self_nonneg vy])

theorem edgeScan_bounds (p : GEnt) (poly : List GPt) :
    ∀ (es : List (GPt × GPt)) (acc : Option WallPush),
      (∀ w, acc = some w → |w.nx| ≤ 1 ∧ |w.ny| ≤ 1 ∧ 0 < w.overlap ∧ w.overlap ≤ p.radius) →
      ∀ w, es.foldl (edgeScanStep p poly) acc = some w →
        |w.nx| ≤ 1 ∧ |w.ny| ≤ 1 ∧ 0 < w.overlap ∧ w.overlap ≤ p.radius := by
  intro es
  induction es with
  | nil =>
    intro acc hacc w h
    exact hacc w h
  | cons e rest ih =>
    intro acc hacc w h
    rw [List.foldl_cons] at h
    refine ih _ ?_ w h
    intro w2 hw2
    rcases acc with _ | w0
    all_goals (
      unfold edgeScanStep at hw2
      dsimp only at hw2
      split at hw2)
    case _ hkeep =>
      injection hw2 with hw2
      subst hw2
      exact ⟨(edgeNormal_abs_le_one _ _ _).1, (edgeNormal_abs_le_one _ _ _).2,
        hkeep, sub_le_self _ (Real.sqrt_nonneg _)⟩
    case _ =>
      exact hacc w2 hw2
    case _ hkeep =>
      injection hw2 with hw2
      subst hw2
      exact ⟨(edgeNormal_abs_le_one _ _ _).1, (edgeNormal_abs_le_one _ _ _).2,
        hkeep.1, sub_le_self _ (Real.sqrt_nonneg _)⟩
    case _ =>
      exact hacc w2 hw2

theorem wallScan_push_bounds (p : GEnt) (poly : List GPt) (pu : WallPush)
    (h : wallScan p poly = some pu) :
    |pu.nx| ≤ 1 ∧ |pu.ny| ≤ 1 ∧ 0 < pu.overlap ∧ pu.overlap ≤ p.radius := by
  unfold wallScan at h
  exact edgeScan_bounds p poly (polyEdgesFwd poly) none (fun w hw => Option.noConfusion hw) pu h

theorem resolve_fold_bounds (r : ℝ) (hr : 0 ≤ r) :
    ∀ (ws : List (List GPt)) (L : ℝ) (e : GEnt),
      e.radius = r → |e.x| ≤ L → |e.y| ≤ L →
      |(ws.foldl resolvePolyMatch e).x| ≤ L + ws.length * r ∧
      |(ws.foldl resolvePolyMatch e).y| ≤ L + ws.length * r ∧
      (ws.foldl resolvePolyMatch e).radius = r := by
  intro ws
  induction ws with
  | nil =>
    intro L e hrad hx hy
    simpa using ⟨hx, hy, hrad⟩
  | cons wll rest ih =>
    intro L e hrad hx hy
    rw [List.foldl_cons]
    have hstep : |(resolvePolyMatch e wll).x| ≤ L + r ∧
        |(resolvePolyMatch e wll).y| ≤ L + r ∧ (resolvePolyMatch e wll).radius = r := by
      unfold resolvePolyMatch
      cases hscan : wallScan e wll with
      | none =>
        exact ⟨by dsimp only; linarith, by dsimp only; linarith, by dsimp only; exact hrad⟩
      | some pu =>
        obtain ⟨hnx, hny, hov1, hov2⟩ := wallScan_push_bounds e wll pu hscan
        have hpush : |pu.nx * pu.overlap| ≤ r := by
          rw [abs_mul]
          calc |pu.nx| * |pu.overlap| ≤ 1 * |pu.overlap| :=
                mul_le_mul_of_nonneg_right hnx (abs_nonneg _)
            _ = |pu.overlap| := one_mul _
            _ ≤ r := by rw [abs_of_pos hov1]; rw [hrad] at hov2; exact hov2
        have hpushy : |pu.ny * pu.overlap| ≤ r := by
          rw [abs_mul]
          calc |pu.ny| * |pu.overlap| ≤ 1 * |pu.overlap| :=
                mul_le_mul_of_nonneg_right hny (abs_nonneg _)
            _ = |pu.overlap| := one_mul _
            _ ≤ r := by rw [abs_of_pos hov1]; rw [hrad] at hov2; exact hov2
        have hxb : |e.x + pu.nx * pu.overlap| ≤ L + r := by
          calc |e.x + pu.nx * pu.overlap| ≤ |e.x| + |pu.nx * pu.overlap| := abs_add _ _
            _ ≤ L + r := add_le_add hx hpush
        have hyb : |e.y + pu.ny * pu.overlap| ≤ L + r := by
          calc |e.y + pu.ny * pu.overlap| ≤ |e.y| + |pu.ny * pu.overlap| := abs_add _ _
            _ ≤ L + r := add_le_add hy hpushy
        dsimp only
        split
        · exact ⟨hxb, hyb, hrad⟩
        · exact ⟨hxb, hyb, hrad⟩
    obtain ⟨h1, h2, h3⟩ := hstep
    obtain ⟨g1, g2, g3⟩ := ih (L + r) (resolvePolyMatch e wll) h3 h1 h2
    refine ⟨?_, ?_, g3⟩
    · calc |(List.foldl resolvePolyMatch (resolvePolyMatch e wll) rest).x| ≤
          L + r + rest.length * r := g1
        _ = L + (rest.length + 1) * r := by ring
        _ = L + (wll :: rest).length * r := by
          rw [List.length_cons]
          push_cast
          ring
    · calc |(List.foldl resolvePolyMatch (resolvePolyMatch e wll) rest).y| ≤
          L + r + rest.length * r := g2
        _ = L + (rest.length + 1) * r := by ring
        _ = L + (wll :: rest).length * r := by
          rw [List.length_cons]
          push_cast
          ring

/-- C8 (amended): after the movement phase the map-bounds half of the claim
holds only in the weakened form `|x|, |y| ≤ (half - radius - 1) + #walls·radius`
— the bounds clamp to `half - radius - 1` and each wall resolution moves the
player by at most `radius` (push normal has components of magnitude ≤ 1 and
the overlap lies in `(0, radius]`), and the radius itself is untouched.  The
wall-separation half of the claim ("outside every wall shape by at least
radius") is FALSE even for a displacement far below the wall thickness: the
single-edge push of the resolver under-resolves corners, see the
counterexample. -/
theorem c8_containment_amended (walls : List (List GPt))
    (half inpx inpy speedMul baseSpeed dt : ℝ) (p : GEnt)
    (hr : 0 ≤ p.radius) (hl : 0 ≤ half - p.radius - 1) :
    |(playerMovePhase walls half inpx inpy speedMul baseSpeed dt p).x| ≤
      (half - p.radius - 1) + walls.length * p.radius ∧
    |(playerMovePhase walls half inpx inpy speedMul baseSpeed dt p).y| ≤
      (half - p.radius - 1) + walls.length * p.radius ∧
    (playerMovePhase walls half inpx inpy speedMul baseSpeed dt p).radius = p.radius := by
  unfold playerMovePhase
  dsimp only
  refine resolve_fold_bounds p.radius hr walls (half - p.radius - 1) _ rfl ?_ ?_
  · dsimp only
    rw [abs_le]
    constructor <;> split_ifs <;> linarith
  · dsimp only
    rw [abs_le]
    constructor <;> split_ifs <;> linarith

theorem c8_containment_amended_witness :
    |(playerMovePhase [sqWall] 9000 0 1 1 380 (1 / 20) ⟨-9, -31, 0, 0, 28⟩).x| ≤
      (9000 - 28 - 1) + 1 * 28 ∧
    |(playerMovePhase [sqWall] 9000 0 1 1 380 (1 / 20) ⟨-9, -31, 0, 0, 28⟩).y| ≤
      (9000 - 28 - 1) + 1 * 28 := by
  have h := c8_containment_amended [sqWall] 9000 0 1 1 380 (1 / 20) ⟨-9, -31, 0, 0, 28⟩
    (by norm_num) (by norm_num)
  refine ⟨?_, ?_⟩
  · have := h.1
    norm_num at this ⊢
    convert this using 2
  · have := h.2.1
    norm_num at this ⊢
    convert this using 2

theorem sqrt225_eq : Real.sqrt 225 = 15 := by
  rw [show (225 : ℝ) = 15 ^ 2 by norm_num]
  exact Real.sqrt_sq (by norm_num)

theorem sqrt10000_eq : Real.sqrt 10000 = 100 := by
  rw [show (10000 : ℝ) = 100 ^ 2 by norm_num]
  exact Real.sqrt_sq (by norm_num)

/-- C8 counterexample: a radius-28 player standing compliantly below the
corner of a 100×100 square wall (at (-9,-31), squared distance 1042 ≥ 28²)
moves up one tick (displacement 19, far below the wall thickness 100).  The
resolver picks the single bottom edge, pushes along its normal by that edge's
overlap only, and leaves the player at (-9,-25) — squared distance 706 < 28²
to the wall shape, violating "outside every wall shape by at least the
player's radius" even though no tunneling condition is broken. -/
theorem c8_counterexample :
    playerMovePhase [sqWall] 9000 0 1 1 380 (1 / 20) ⟨-9, -31, 0, 0, 28⟩ =
      ⟨-9, -25, 0, 380, 28⟩ ∧
    (28 : ℝ) ^ 2 ≤ distSqToSq100 (-9) (-31) ∧
    distSqToSq100 (-9) (-25) < 28 ^ 2 ∧
    (1 : ℝ) * 380 * (1 / 20) < 100 := by
  have hray : rayCastInside 0 0 sqWall = true := by
    norm_num [rayCastInside, polyEdgesRC, sqWall, List.rotate, List.zip, List.zipWith,
      List.foldl_cons, List.foldl_nil]
  have hedges : polyEdgesFwd sqWall =
      [(⟨0, 0⟩, ⟨100, 0⟩), (⟨100, 0⟩, ⟨100, 100⟩),
       (⟨100, 100⟩, ⟨0, 100⟩), (⟨0, 100⟩, ⟨0, 0⟩)] := by
    norm_num [polyEdgesFwd, sqWall, List.rotate, List.zip, List.zipWith]
  have hstep1 : edgeScanStep ⟨-9, -12, 0, 380, 28⟩ sqWall none (⟨0, 0⟩, ⟨100, 0⟩) =
      some ⟨0, -1, 13⟩ := by
    unfold edgeScanStep
    norm_num [segParam, edgeNormal, sqrt225_eq, sqrt10000_eq, hray]
  have hstep2 : edgeScanStep ⟨-9, -12, 0, 380, 28⟩ sqWall (some ⟨0, -1, 13⟩)
      (⟨100, 0⟩, ⟨100, 100⟩) = some ⟨0, -1, 13⟩ := by
    unfold edgeScanStep
    dsimp only
    split
    · rename_i hkeep
      exfalso
      norm_num [segParam] at hkeep
      have h1 : Real.sqrt 12025 < 28 := by linarith [hkeep.1]
      have h2 : (12025 : ℝ) < 28 ^ 2 := (Real.sqrt_lt' (by norm_num)).mp h1
      norm_num at h2
    · rfl
  have hstep3 : edgeScanStep ⟨-9, -12, 0, 380, 28⟩ sqWall (some ⟨0, -1, 13⟩)
      (⟨100, 100⟩, ⟨0, 100⟩) = some ⟨0, -1, 13⟩ := by
    unfold edgeScanStep
    dsimp only
    split
    · rename_i hkeep
      exfalso
      norm_num [segParam] at hkeep
      have h1 : Real.sqrt 12625 < 28 := by linarith [hkeep.1]
      have h2 : (12625 : ℝ) < 28 ^ 2 := (Real.sqrt_lt' (by norm_num)).mp h1
      norm_num at h2
    · rfl
  have hstep4 : edgeScanStep ⟨-9, -12, 0, 380, 28⟩ sqWall (some ⟨0, -1, 13⟩)
      (⟨0, 100⟩, ⟨0, 0⟩) = some ⟨0, -1, 13⟩ := by
    unfold edgeScanStep
    dsimp only
    split
    · rename_i hkeep
      exfalso
      norm_num [segParam, sqrt225_eq] at hkeep
    · rfl
  have hscan : wallScan ⟨-9, -12, 0, 380, 28⟩ sqWall = some ⟨0, -1, 13⟩ := by
    unfold wallScan
    rw [hedges]
    simp only [List.foldl_cons, List.foldl_nil]
    rw [hstep1, hstep2, hstep3, hstep4]
  have hres : resolvePolyMatch ⟨-9, -12, 0, 380, 28⟩ sqWall = ⟨-9, -25, 0, 380, 28⟩ := by
    unfold resolvePolyMatch
    rw [hscan]
    dsimp only
    norm_num
  have h0 : playerMovePhase [sqWall] 9000 0 1 1 380 (1 / 20) ⟨-9, -31, 0, 0, 28⟩ =
      resolvePolyMatch ⟨-9, -12, 0, 380, 28⟩ sqWall := by
    unfold playerMovePhase
    norm_num [List.foldl_cons, List.foldl_nil]
  refine ⟨by rw [h0, hres], ?_, ?_, by norm_num⟩
  · norm_num [distSqToSq100]
  · norm_num [distSqToSq100]
